import Mathlib

/-!
Verification development for the request-routing and dispatch engine of
`router.go` (package beego).  The Go source is shallowly embedded: pure
helpers become Lean functions, the statefui request flow of
`ControllerRegister.ServeHTTP` becomes explicit state passing over a
`Ctx` record together with an event trace, and collaborators that live
outside `router.go` (the path trie of `tree.go`, the static file server,
the exception renderer, the session store) are abstracted as parameters
or recorded as trace events.
-/

namespace BeegoRouter

/-! ## Association lists: the embedding of Go `map[string]string`.

A Go string map is embedded as an insertion-ordered association list
with unique keys: `alSet` is map assignment (`m[k] = v`), `alGet` is
lookup, `alDel` is `delete`.  Go specifies map *iteration* order as
unspecified, so functions of the source that range over a map in an
order-sensitive way (`tourl`) take the iteration sequence as an input.
-/

abbrev AList := List (String × String)

/-- Go map assignment `m[k] = v`: replace the binding of `k` in place,
or append a new binding. -/
def alSet : AList → String → String → AList
  | [], k, v => [(k, v)]
  | (k', v') :: rest, k, v =>
    if k' = k then (k, v) :: rest else (k', v') :: alSet rest k v

/-- Go map lookup `m[k]` (with the `ok` flag as `Option`). -/
def alGet : AList → String → Option String
  | [], _ => none
  | (k', v') :: rest, k => if k' = k then some v' else alGet rest k

/-- Go `delete(m, k)`. -/
def alDel : AList → String → AList
  | [], _ => []
  | (k', v') :: rest, k =>
    if k' = k then alDel rest k else (k', v') :: alDel rest k

/-! ## Character-level string helpers

Embeddings of the Go `strings` functions used by `router.go`, written
by structural recursion over the character list so that they evaluate
on closed inputs. -/

/-- Go `strings.ToLower` (Unicode simple folding restricted to the
per-character map). -/
def goToLower (s : String) : String := ⟨s.data.map Char.toLower⟩

/-- Go `strings.ToUpper`. -/
def goToUpper (s : String) : String := ⟨s.data.map Char.toUpper⟩

/-- Go `strings.HasSuffix`. -/
def goHasSuffix (s suffix : String) : Bool := suffix.data.isSuffixOf s.data

/-- Split a character list at every occurrence of `sep`
(Go `strings.Split` with a one-character separator: the empty input
yields one empty part, a trailing separator a trailing empty part). -/
def splitChar (sep : Char) : List Char → List (List Char)
  | [] => [[]]
  | c :: rest =>
    if c = sep then [] :: splitChar sep rest
    else
      match splitChar sep rest with
      | [] => [[c]]
      | h :: t => (c :: h) :: t

/-- Go `strings.Split(s, sep)` for a one-character separator. -/
def goSplit (s : String) (sep : Char) : List String :=
  (splitChar sep s.data).map (fun l => ⟨l⟩)

/-! ## `strconv.Itoa`

`router.go` line 701 writes `p[strconv.Itoa(k)] = v`.  `itoa` embeds
Go's decimal rendering of a natural number; its injectivity is needed
to read the exploded splat back positionally. -/

/-- Little-endian decimal digits of `n` (empty for `0`). -/
def itoaAux : Nat → List Char
  | 0 => []
  | n + 1 => Nat.digitChar ((n + 1) % 10) :: itoaAux ((n + 1) / 10)
decreasing_by exact Nat.div_lt_self (Nat.succ_pos n) (by decide)

/-- Go `strconv.Itoa` on naturals. -/
def itoa (n : Nat) : String :=
  if n = 0 then "0" else ⟨(itoaAux n).reverse⟩

/-! ## The response writer wrapper (`responseWriter`, router.go 895-938)

The underlying `http.ResponseWriter` is observed through the sequence of
events sent to it: header writes (with their status code) and body
writes. -/

/-- An event sent to the underlying `http.ResponseWriter`. -/
inductive UEvent where
  | header (code : Nat)
  | body
  deriving DecidableEq

/-- `responseWriter` (router.go 897-901): the wrapped writer (observed as
its event list) plus the `started` and `status` fields. -/
structure RWState where
  writer : List UEvent
  started : Bool
  status : Nat
  deriving DecidableEq

/-- `responseWriter.Write` (router.go 911-914): sets `started` and
forwards to the underlying writer. -/
def rwWrite (w : RWState) : RWState :=
  { w with started := true, writer := w.writer ++ [UEvent.body] }

/-- `responseWriter.WriteHeader` (router.go 918-922): records the code,
sets `started`, forwards to the underlying writer. -/
def rwWriteHeader (w : RWState) (code : Nat) : RWState :=
  { w with status := code, started := true,
           writer := w.writer ++ [UEvent.header code] }

/-- The operations of the wrapper (router.go 903-938). -/
inductive RWOp where
  | write
  | writeHeader (code : Nat)
  | headerMap
  | flush
  | hijack
  deriving DecidableEq

/-- Dispatch of a wrapper operation.  `Header` only returns the header
map, `Flush`/`Hijack` only delegate: none of the three touches the
wrapper's fields (router.go 904-906, 925-938). -/
def rwApply (w : RWState) : RWOp → RWState
  | RWOp.write => rwWrite w
  | RWOp.writeHeader code => rwWriteHeader w code
  | RWOp.headerMap => w
  | RWOp.flush => w
  | RWOp.hijack => w

/-! ## The request context

`beecontext.Context` is created at the top of `ServeHTTP`
(router.go 590-598).  Only the fields `router.go` reads or writes are
modelled: the wrapped writer, `Input.Params`, `Input.RunController` /
`Input.RunMethod`, and `Output.Status`. -/

structure Ctx where
  w : RWState
  /-- `context.Input.Params`; `nil` until something assigns it
  (router.go 618-621, 704-706). -/
  params : Option AList
  /-- `context.Output.Status`; `0` until a handler sets it. -/
  outputStatus : Nat
  /-- `context.Input.RunController` (the controller type a filter may
  pre-resolve), observed by its name; `none` is Go's `nil`. -/
  runController : Option String
  /-- `context.Input.RunMethod`; empty until a filter sets it. -/
  runMethod : String
  deriving DecidableEq

/-- The context at request entry (router.go 584-598): fresh wrapper over
an untouched underlying writer, no params, no status, no pre-resolved
controller. -/
def initCtx : Ctx :=
  { w := { writer := [], started := false, status := 0 },
    params := none, outputStatus := 0, runController := none, runMethod := "" }

/-- The observable effects a filter callback or handler body can have on
the request context.  Callbacks reach the response only through the
wrapper and the context setters, so their behaviour is a list of these
operations. -/
inductive CbOp where
  | write
  | writeHeader (code : Nat)
  /-- `ctx.Output.SetStatus`.  Modelled from the spec: the setter of the
  external `context` package records the code on the Request Context
  without writing it to the response. -/
  | setStatus (code : Nat)
  | setParam (k v : String)
  /-- set `Input.RunController` / `Input.RunMethod` (pre-resolving a
  handler from a filter). -/
  | preResolve (ctrl mth : String)
  deriving DecidableEq

def applyCbOp (c : Ctx) : CbOp → Ctx
  | CbOp.write => { c with w := rwWrite c.w }
  | CbOp.writeHeader code => { c with w := rwWriteHeader c.w code }
  | CbOp.setStatus code => { c with outputStatus := code }
  | CbOp.setParam k v =>
      { c with params := some (alSet (c.params.getD []) k v) }
  | CbOp.preResolve ctrl mth =>
      { c with runController := some ctrl, runMethod := mth }

/-- Run a callback body. -/
def runCb (c : Ctx) (ops : List CbOp) : Ctx := ops.foldl applyCbOp c

/-! ## Filters (router.go 404-429, 609-632) -/

/-- `FilterRouter` (from the missing `filter.go`; its fields are those
`router.go` uses).  `valid` abstracts `FilterRouter.ValidRouter` of the
missing `tree.go`: it returns the captured parameters when the compiled
pattern matches the path. -/
structure FilterRouter where
  pattern : String
  returnOnOutput : Bool
  valid : String → Option AList
  cb : List CbOp

/-- `InsertFilter` (router.go 406-422): with no boolean argument the
`returnOnOutput` flag defaults to `true`, otherwise it is the first
argument.  (Compilation of the pattern into `mr.tree` lives in the
missing `tree.go` and stays behind `valid`.) -/
def insertFilterReturnOnOutput (params : List Bool) : Bool :=
  match params with
  | [] => true
  | b :: _ => b

/-- Events of a request run, the model's observation of external calls:
filter callbacks run, the static collaborator, trie lookups,
`exception(code, context)` calls, handler invocations, and the
finalization block. -/
inductive Ev where
  | error405
  | filterRun (pattern : String)
  | staticServe
  | trieLookup (verb path : String)
  | exceptionRaised (code : String)
  | invokeFunction (pattern : String)
  | invokeHandler (pattern : String)
  | invokeController (ctrl mth : String)
  | adminReached
  | adminStatusWrite (code : Nat)
  deriving DecidableEq

/-- Merging captured filter parameters into `Input.Params`
(router.go 617-622): each captured pair is assigned in turn; the map is
only materialized on the first write, so an empty capture leaves a `nil`
`Params` untouched. -/
def mergeParams (cur : Option AList) (ps : AList) : Option AList :=
  ps.foldl (fun m kv => some (alSet (m.getD []) kv.1 kv.2)) cur

/-- The body of `doFilter` for one position's list (router.go 612-628):
halt check before each filter, pattern match, parameter merge, callback,
halt re-check. -/
def doFilterList (urlPath : String) : List FilterRouter → Ctx → Bool × Ctx × List Ev
  | [], c => (false, c, [])
  | f :: rest, c =>
    if f.returnOnOutput ∧ c.w.started then (true, c, [])
    else
      let step : Ctx × List Ev :=
        match f.valid urlPath with
        | some ps =>
            (runCb { c with params := mergeParams c.params ps } f.cb,
             [Ev.filterRun f.pattern])
        | none => (c, [])
      if f.returnOnOutput ∧ step.1.w.started then (true, step.1, step.2)
      else
        let r := doFilterList urlPath rest step.1
        (r.1, r.2.1, step.2 ++ r.2.2)

/-! ## Route table entries -/

inductive RouterType where
  | beego
  | restful
  | handler
  deriving DecidableEq

/-- `controllerInfo` (router.go 106-113).  `controllerType` is observed
through its package path and name (used by `URLFor`); the bodies of the
raw handler and of the RESTful callback are their observable effects. -/
structure ControllerInfo where
  pattern : String
  ctrlPkgPath : String
  ctrlName : String
  methods : AList
  routerType : RouterType
  /-- effect of `handler.ServeHTTP(rw, r)` (router.go 735): the raw
  handler receives the *original* writer, so its writes go to the
  underlying event list without touching the wrapper's flags. -/
  handlerEffect : List UEvent
  /-- effect of `runFunction(context)` (router.go 728). -/
  runFunctionCb : List CbOp

/-- `HTTPMETHOD` (router.go 54-64), as the set of its keys. -/
def HTTPMETHOD : List String :=
  ["GET", "POST", "PUT", "DELETE", "PATCH", "OPTIONS", "HEAD", "TRACE", "CONNECT"]

/-- The five filter positions (router.go 38-44). -/
def BeforeStatic : Nat := 0
def BeforeRouter : Nat := 1
def BeforeExec : Nat := 2
def AfterExec : Nat := 3
def FinishRouter : Nat := 4

/-- The result of `Tree.Match` (missing `tree.go`), as used on
router.go 694: a run object that may be a `*controllerInfo`, and a
parameter map that may be `nil`. -/
abbrev MatchFn := String → Option ControllerInfo × Option AList

/-- The registered state of a `ControllerRegister` plus the behaviour of
the controllers it can instantiate. -/
structure Register where
  enableFilter : Bool
  filters : Nat → List FilterRouter
  /-- `p.routers`: one `Tree.Match` function per verb with a registered
  tree (`tree.go` is not part of the source; the trie is abstracted by
  its match function). -/
  routers : String → Option MatchFn
  /-- observable lifecycle effect of instantiating the controller type
  named by the first argument and running the method named by the
  second (router.go 756-818, collapsed: no claim depends on the
  lifecycle's interior). -/
  controllerBehavior : String → String → List CbOp

/-- Process-wide configuration read by `ServeHTTP`, plus the behaviour
of the external collaborators it calls. -/
structure Config where
  runMode : String
  routerCaseSensitive : Bool
  sessionOn : Bool
  /-- whether `GlobalSessions.SessionStart` fails (router.go 654-659). -/
  sessionStartFails : Bool
  /-- Modelled from the spec: the effect of the static-asset
  collaborator `serverStaticRouter(context)` (router.go 645), which may
  write to the response through the context. -/
  staticCb : List CbOp

structure Request where
  method : String
  path : String
  /-- the value of the `_method` query parameter, `""` if absent. -/
  methodOverride : String

/-- Case folding of the request path (router.go 602-607). -/
def urlPathOf (cfg : Config) (req : Request) : String :=
  if cfg.routerCaseSensitive then req.path else goToLower req.path

/-- `doFilter` (router.go 609-632): a no-op unless some filter was ever
inserted. -/
def doFilter (reg : Register) (pos : Nat) (urlPath : String) (c : Ctx) :
    Bool × Ctx × List Ev :=
  if reg.enableFilter then doFilterList urlPath (reg.filters pos) c
  else (false, c, [])

/-- The verb override (router.go 683-691): a POST whose `_method` query
parameter is PUT or DELETE is treated as that verb. -/
def overrideMethod (method q : String) : String :=
  let m1 := if method = "POST" ∧ q = "PUT" then "PUT" else method
  if m1 = "POST" ∧ q = "DELETE" then "DELETE" else m1

/-- Splat explosion (router.go 698-703): if the matched parameters carry
`":splat"`, its `/`-separated components are added under the positional
keys `"0"`, `"1"`, ... -/
def explodeSplat (p : AList) : AList :=
  match alGet p ":splat" with
  | some splat =>
      (goSplit splat '/').enum.foldl (fun m kv => alSet m (itoa kv.1) kv.2) p
  | none => p

/-- The trie-lookup step (router.go 682-710, inside `if !findrouter`):
apply the verb override, consult that verb's trie, and on a match store
the (splat-exploded) parameter map into the context when it is not
`nil`. -/
def lookupStage (routers : String → Option MatchFn) (method q urlPath : String)
    (c : Ctx) : Option ControllerInfo × Ctx × List Ev :=
  match routers (overrideMethod method q) with
  | some t =>
    match t urlPath with
    | (some r, some p) =>
      (some r, { c with params := some (explodeSplat p) },
       [Ev.trieLookup (overrideMethod method q) urlPath])
    | (some r, none) =>
      (some r, c, [Ev.trieLookup (overrideMethod method q) urlPath])
    | (none, _) => (none, c, [Ev.trieLookup (overrideMethod method q) urlPath])
  | none => (none, c, [])

/-- The finalization block at label `Admin` (router.go 828-861).  The
timing, metrics, and access-log statements have no effect on the
modelled state; the status write (router.go 857-860) goes to the
*underlying* writer `w.writer`, bypassing the wrapper. -/
def adminBlock (c : Ctx) : Ctx × List Ev :=
  if c.outputStatus ≠ 0 then
    ({ c with w := { c.w with writer := c.w.writer ++ [UEvent.header c.outputStatus] } },
     [Ev.adminReached, Ev.adminStatusWrite c.outputStatus])
  else (c, [Ev.adminReached])

/-- Prefix a trace onto a stage result. -/
def withEvs (e : List Ev) (r : Ctx × List Ev) : Ctx × List Ev :=
  (r.1, e ++ r.2)

/-- The tail of the dispatch after the handler has run
(router.go 820-826 plus the `Admin` block): the after-exec filters, on
stop `goto Admin`; otherwise the finish filters (result ignored), then
`Admin`. -/
def serveTail (reg : Register) (urlPath : String) (c : Ctx) : Ctx × List Ev :=
  match doFilter reg AfterExec urlPath c with
  | (true, c1, e1) => withEvs e1 (adminBlock c1)
  | (false, c1, e1) =>
    let r := doFilter reg FinishRouter urlPath c1
    withEvs (e1 ++ r.2.2) (adminBlock r.2.1)

/-- Lines 712-826 of `ServeHTTP`: the 404 branch, the before-exec
filters, dispatch by router type (405 for a disallowed verb on a
RESTful route, direct invocation of a raw handler, method resolution
and lifecycle for a beego controller or a filter-pre-resolved
controller), then `serveTail`.  `runCtrl`/`runMth` carry
`runrouter`/`runMethod` when a filter pre-resolved them. -/
def serveAfterLookup (reg : Register) (req : Request) (urlPath : String)
    (routerInfo : Option ControllerInfo) (runCtrl : Option String)
    (runMth : String) (findrouter : Bool) (c : Ctx) : Ctx × List Ev :=
  if ¬findrouter then
    withEvs [Ev.exceptionRaised "404"] (adminBlock c)
  else
    match doFilter reg BeforeExec urlPath c with
    | (true, c1, e1) => withEvs e1 (adminBlock c1)
    | (false, c1, e1) =>
      match routerInfo with
      | some ri =>
        match ri.routerType with
        | RouterType.restful =>
          if (alGet ri.methods req.method).isSome then
            withEvs (e1 ++ [Ev.invokeFunction ri.pattern])
              (serveTail reg urlPath (runCb c1 ri.runFunctionCb))
          else
            withEvs (e1 ++ [Ev.exceptionRaised "405"]) (adminBlock c1)
        | RouterType.handler =>
          withEvs (e1 ++ [Ev.invokeHandler ri.pattern])
            (serveTail reg urlPath
              { c1 with w := { c1.w with writer := c1.w.writer ++ ri.handlerEffect } })
        | RouterType.beego =>
          let mth := overrideMethod req.method req.methodOverride
          let runMethod :=
            match alGet ri.methods mth with
            | some m => m
            | none =>
              match alGet ri.methods "*" with
              | some m => m
              | none => mth
          withEvs (e1 ++ [Ev.invokeController ri.ctrlName runMethod])
            (serveTail reg urlPath
              (runCb c1 (reg.controllerBehavior ri.ctrlName runMethod)))
      | none =>
        withEvs (e1 ++ [Ev.invokeController (runCtrl.getD "") runMth])
          (serveTail reg urlPath
            (runCb c1 (reg.controllerBehavior (runCtrl.getD "") runMth)))

/-- Lines 672-826 of `ServeHTTP`: before-router filters (stop →
`Admin`), the pre-resolved-handler check (router.go 676-680), the trie
lookup, then the dispatch. -/
def serveFromBeforeRouter (reg : Register) (req : Request) (urlPath : String)
    (c : Ctx) : Ctx × List Ev :=
  match doFilter reg BeforeRouter urlPath c with
  | (true, c1, e1) => withEvs e1 (adminBlock c1)
  | (false, c1, e1) =>
    if c1.runController.isSome ∧ c1.runMethod ≠ "" then
      withEvs e1
        (serveAfterLookup reg req urlPath none c1.runController c1.runMethod true c1)
    else
      withEvs
        (e1 ++ (lookupStage reg.routers req.method req.methodOverride urlPath c1).2.2)
        (serveAfterLookup reg req urlPath
          (lookupStage reg.routers req.method req.methodOverride urlPath c1).1 none ""
          (lookupStage reg.routers req.method req.methodOverride urlPath c1).1.isSome
          (lookupStage reg.routers req.method req.methodOverride urlPath c1).2.1)

/-- `ControllerRegister.ServeHTTP` (router.go 577-861).  The dev-mode
`Server` header, body copying/form parsing, and session release have no
effect on the modelled state; a session-start failure logs, raises the
`"503"` exception and returns *without* running the `Admin` block
(router.go 654-659). -/
def serve (cfg : Config) (reg : Register) (req : Request) : Ctx × List Ev :=
  if ¬req.method ∈ HTTPMETHOD then
    -- router.go 635-638: `http.Error(w, "Method Not Allowed", 405)`
    -- writes the header and body through the wrapper, then `goto Admin`.
    withEvs [Ev.error405]
      (adminBlock { initCtx with w := rwWrite (rwWriteHeader initCtx.w 405) })
  else
    match doFilter reg BeforeStatic (urlPathOf cfg req) initCtx with
    | (true, c1, e1) => withEvs e1 (adminBlock c1)
    | (false, c1, e1) =>
      if (runCb c1 cfg.staticCb).w.started then
        withEvs (e1 ++ [Ev.staticServe]) (adminBlock (runCb c1 cfg.staticCb))
      else if cfg.sessionOn ∧ cfg.sessionStartFails then
        (runCb c1 cfg.staticCb, e1 ++ [Ev.staticServe, Ev.exceptionRaised "503"])
      else
        withEvs (e1 ++ [Ev.staticServe])
          (serveFromBeforeRouter reg req (urlPathOf cfg req) (runCb c1 cfg.staticCb))

/-! ## Panic recovery (`recoverPanic`, router.go 863-893) -/

/-- A recovered panic value, observed by `fmt.Sprint`'s textual identity
plus the distinguished `ErrAbort` sentinel. -/
inductive PanicVal where
  | abortSentinel
  | other (text : String)
  deriving DecidableEq

/-- What `recoverPanic` does with a recovered value. -/
inductive RecoverAction where
  | swallow
  | repropagate
  | runErrorHandler (code : String)
  | logOnly
  | logAndShow
  deriving DecidableEq

/-- `ControllerRegister.recoverPanic` (router.go 863-893): swallow the
abort sentinel; re-propagate if `RecoverPanic` is off; if
`EnableErrorsShow` and the textual identity is a key of `ErrorMaps`,
run that exception handler and stop; otherwise log critically with the
captured stack and, in dev run mode only, show the diagnostic page. -/
def recoverPanic (recoverEnabled enableErrorsShow : Bool)
    (errorMaps : List String) (runMode : String) (err : PanicVal) :
    RecoverAction :=
  match err with
  | PanicVal.abortSentinel => RecoverAction.swallow
  | PanicVal.other t =>
    if ¬recoverEnabled then RecoverAction.repropagate
    else if enableErrorsShow ∧ t ∈ errorMaps then RecoverAction.runErrorHandler t
    else if runMode = "dev" then RecoverAction.logAndShow
    else RecoverAction.logOnly

/-! ## Raw-handler registration (`Handler`, router.go 349-362) -/

/-- A variadic `...interface{}` option of `Handler`, observed by whether
it is a boolean. -/
inductive HandlerOpt where
  | boolOpt (b : Bool)
  | otherOpt
  deriving DecidableEq

/-- Go `path.Join(a, b)` for the shapes `Handler` and `geturl` feed it:
a slash-rooted (or empty) left operand without a trailing slash and a
non-empty right operand. -/
def pathJoin (a b : String) : String :=
  if a = "" then b else if a = "/" then "/" ++ b else a ++ "/" ++ b

/-- The pattern under which `Handler` registers the route
(router.go 354-358): if a first option is present *and is a boolean* —
its value is never inspected — the internal catch-all segment `?:all`
is appended. -/
def handlerRegisteredPattern (pattern : String) (options : List HandlerOpt) : String :=
  match options with
  | HandlerOpt.boolOpt _ :: _ => pathJoin pattern "?:all"
  | _ => pattern

/-! ## The reverse resolver (`URLFor`/`geturl`/`tourl`, router.go 431-574, 940-949)

The `Tree` structure of the missing `tree.go` is reconstructed from the
fields `geturl` reads: `fixrouters` (literal children, a Go map ranged
over — embedded as an ordered list), `wildcard` (the at-most-one
wildcard child) and `leaves`.  A leaf carries the run object, the
ordered wildcard names, and the optional compiled regex, observed by
its source text and match predicate.  Go passes the parameter map by
reference and `geturl` deletes from it even on failed attempts, so the
embedding threads the (possibly mutated) map through every call. -/

/-- `l.regexps`: the compiled expression, observed through `String()`
and `MatchString`. -/
structure RegexInfo where
  src : String
  matchString : String → Bool

structure Leaf where
  /-- `l.runObject`, with the `(*controllerInfo)` type assertion of
  router.go 481 already applied: `none` for any other run object. -/
  runObject : Option ControllerInfo
  wildcards : List String
  regexps : Option RegexInfo

inductive Tree where
  | node (fixrouters : List (String × Tree)) (wildcard : Option Tree) (leaves : List Leaf)

/-- `urlPlaceholder` (router.go 74). -/
def urlPlaceholder : String := "\x7b\x7bplaceholder\x7d\x7d"

/-- Scan for the first occurrence of `pat` and splice in `rep`. -/
def replFirstAux (pat rep : List Char) : List Char → List Char
  | [] => []
  | c :: rest =>
    if pat.isPrefixOf (c :: rest) then rep ++ (c :: rest).drop pat.length
    else c :: replFirstAux pat rep rest

/-- Go `strings.Replace(s, pat, rep, 1)` for a non-empty `pat`. -/
def replaceFirst (s pat rep : String) : String :=
  ⟨replFirstAux pat.data rep.data s.data⟩

/-- Scan for every occurrence of `pat` and splice in `rep`. -/
def replAllAux (pat rep : List Char) : List Char → List Char
  | [] => []
  | c :: rest =>
    if pat.isPrefixOf (c :: rest) ∧ pat ≠ [] then
      rep ++ replAllAux pat rep ((c :: rest).drop pat.length)
    else c :: replAllAux pat rep rest
termination_by l => l.length
decreasing_by
  · simp only [List.length_drop, List.length_cons]
    have : 1 ≤ pat.length := by
      rcases pat with _ | ⟨p, ps⟩
      · exact absurd rfl (by tauto)
      · simp
    omega
  · simp

/-- Go `strings.Replace(s, pat, rep, -1)` for a non-empty `pat`. -/
def replaceAll (s pat rep : String) : String :=
  ⟨replAllAux pat.data rep.data s.data⟩

/-- Go `strings.TrimRight(s, "&")`. -/
def trimRightAmp (s : String) : String :=
  ⟨(s.data.reverse.dropWhile (fun c => c = '&')).reverse⟩

/-- `tourl` (router.go 940-949) applied to the sequence in which Go's
`range` delivers the map entries — the Go specification leaves that
order unspecified, so it is an input here. -/
def tourl (entries : List (String × String)) : String :=
  if entries = [] then ""
  else trimRightAmp (entries.foldl (fun u kv => u ++ kv.1 ++ "=" ++ kv.2 ++ "&") "?")

/-- Modelled from the spec: the query-string format the spec describes
for leftover parameters — one `k=v` pair per remaining parameter,
`&`-joined, unescaped (the `?`-prefixed form is `specQueryString`).
Compared against the source's `tourl`. -/
def specQueryParts : List (String × String) → String
  | [] => ""
  | [kv] => kv.1 ++ "=" ++ kv.2
  | kv :: rest => kv.1 ++ "=" ++ kv.2 ++ "&" ++ specQueryParts rest

/-- Modelled from the spec: `?`-prefixed `&`-joined query string of the
remaining parameters, empty for no parameters. -/
def specQueryString (entries : List (String × String)) : String :=
  if entries = [] then "" else "?" ++ specQueryParts entries

/-- Go `strings.Trim(s, "^$")`. -/
def trimCaretDollar (s : String) : String :=
  ⟨((s.data.dropWhile (fun c => c = '^' ∨ c = '$')).reverse.dropWhile
      (fun c => c = '^' ∨ c = '$')).reverse⟩

/-- The `find` computation on a matching beego leaf (router.go 484-500):
the capability name is accepted if it is (upper-cased) a known verb and
the verb map is empty or maps it to itself or maps `"*"` to it; failing
that, if some verb-map entry for `"*"` or for the current verb names
it. -/
def leafFind (c : ControllerInfo) (methodName httpMethod : String) : Bool :=
  let find0 : Bool :=
    if goToUpper methodName ∈ HTTPMETHOD then
      if c.methods = [] then true
      else if alGet c.methods (goToUpper methodName) = some (goToUpper methodName) then true
      else match alGet c.methods "*" with
        | some m => m = methodName
        | none => false
    else false
  if find0 then true
  else c.methods.any (fun kv => (kv.1 = "*" ∨ kv.1 = httpMethod) ∧ kv.2 = methodName)

/-- The guard of the leaf loop (router.go 481-483): the run object is a
`*controllerInfo` of beego type whose qualified controller name has the
requested suffix, and the `find` computation accepts. -/
def leafMatches (l : Leaf) (controllName methodName httpMethod : String) : Bool :=
  match l.runObject with
  | some c =>
    c.routerType = RouterType.beego ∧
      goHasSuffix (pathJoin c.ctrlPkgPath c.ctrlName) controllName ∧
      leafFind c methodName httpMethod
  | none => false

/-- The `canskip` placeholder-filling loop (router.go 522-539): `":"`
entries arm a single skip; a missing parameter either consumes the
armed skip or aborts the whole `geturl` call with `(false, "")`,
keeping the deletions made so far. -/
def canskipFill (iter : AList → List (String × String)) :
    List String → String → AList → Bool → Option (Bool × String) × AList
  | [], url, ps, _ => (some (true, url ++ tourl (iter ps)), ps)
  | v :: rest, url, ps, canskip =>
    if v = ":" then canskipFill iter rest url ps true
    else
      match alGet ps v with
      | some u => canskipFill iter rest (replaceFirst url urlPlaceholder u) (alDel ps v) canskip
      | none =>
        if canskip then canskipFill iter rest url ps false
        else (some (false, ""), ps)

/-- The regex-reconstruction walk (router.go 544-560) over the
characters of the trimmed expression source: text outside groups is
copied, each `)` consumes the parameter named by the next wildcard
(deleting it) or breaks.  An out-of-range capture index — a Go runtime
panic — is modelled as a lookup of the empty name. -/
def regexWalk (wildcards : List String) :
    List Char → Nat → Bool → String → AList → String × AList
  | [], _, _, regurl, ps => (regurl, ps)
  | ch :: rest, i, startreg, regurl, ps =>
    if ch = '(' then regexWalk wildcards rest i true regurl ps
    else if ch = ')' then
      let name := wildcards.getD i ""
      match alGet ps name with
      | some v => regexWalk wildcards rest (i + 1) false (regurl ++ v) (alDel ps name)
      | none => (regurl, ps)
    else if ¬startreg then regexWalk wildcards rest i startreg (regurl ++ ch.toString) ps
    else regexWalk wildcards rest i startreg regurl ps

/-- Placeholder filling at a found leaf (router.go 502-567).  The first
component: `some (ok, u)` is a `return ok, u` out of `geturl`; `none`
falls through to the next leaf.  The second component is the parameter
map with the deletions performed by the attempt. -/
def fillLeaf (iter : AList → List (String × String)) (l : Leaf) (url : String)
    (params : AList) : Option (Bool × String) × AList :=
  match l.regexps with
  | none =>
    match l.wildcards with
    | [] =>
      (some (true, replaceFirst url ("/" ++ urlPlaceholder) "" ++ tourl (iter params)), params)
    | [v] =>
      match alGet params v with
      | some value =>
        let ps := alDel params v
        (some (true, replaceFirst url urlPlaceholder value ++ tourl (iter ps)), ps)
      | none => (some (false, ""), params)
    | ws =>
      if ws.length = 3 ∧ ws.head? = some "." then
        match alGet params ":path", alGet params ":ext" with
        | some pv, some ev =>
          let ps := alDel (alDel params ":path") ":ext"
          (some (true, replaceAll url urlPlaceholder (pv ++ "." ++ ev) ++ tourl (iter ps)), ps)
        | _, _ => canskipFill iter ws url params false
      else canskipFill iter ws url params false
  | some rx =>
    let w := regexWalk l.wildcards (trimCaretDollar rx.src).data 0 false "" params
    if rx.matchString w.1 then
      let url' := (goSplit w.1 '/').foldl (fun u p => replaceFirst u urlPlaceholder p) url
      (some (true, url' ++ tourl (iter w.2)), w.2)
    else (none, w.2)

/-- The leaf loop of `geturl` (router.go 480-571). -/
def geturlLeaves (iter : AList → List (String × String)) :
    List Leaf → String → String → String → AList → String → Bool × String × AList
  | [], _, _, _, ps, _ => (false, "", ps)
  | l :: rest, url, controllName, methodName, ps, httpMethod =>
    if leafMatches l controllName methodName httpMethod then
      match fillLeaf iter l url ps with
      | (some (ok, u), ps') => (ok, u, ps')
      | (none, ps') => geturlLeaves iter rest url controllName methodName ps' httpMethod
    else geturlLeaves iter rest url controllName methodName ps httpMethod

mutual

/-- `ControllerRegister.geturl` (router.go 465-574): literal children
first, then the wildcard child with the placeholder appended, then this
node's leaves. -/
def geturl (iter : AList → List (String × String)) (t : Tree)
    (url controllName methodName : String) (params : AList) (httpMethod : String) :
    Bool × String × AList :=
  match t with
  | Tree.node fixrouters wildcard leaves =>
    match geturlFix iter fixrouters url controllName methodName params httpMethod with
    | (true, u, ps) => (true, u, ps)
    | (false, _, ps1) =>
      match geturlWild iter wildcard url controllName methodName ps1 httpMethod with
      | (true, u, ps) => (true, u, ps)
      | (false, _, ps2) => geturlLeaves iter leaves url controllName methodName ps2 httpMethod

/-- The `t.wildcard != nil` attempt of `geturl` (router.go 473-479):
recurse into the wildcard child with the placeholder appended, or fail
leaving the parameters untouched. -/
def geturlWild (iter : AList → List (String × String)) (w : Option Tree)
    (url controllName methodName : String) (params : AList) (httpMethod : String) :
    Bool × String × AList :=
  match w with
  | some wt =>
    geturl iter wt (pathJoin url urlPlaceholder) controllName methodName params httpMethod
  | none => (false, "", params)

/-- The `range t.fixrouters` loop of `geturl` (router.go 466-471),
threading the shared parameter map. -/
def geturlFix (iter : AList → List (String × String)) (children : List (String × Tree))
    (url controllName methodName : String) (params : AList) (httpMethod : String) :
    Bool × String × AList :=
  match children with
  | [] => (false, "", params)
  | (k, sub) :: rest =>
    match geturl iter sub (pathJoin url k) controllName methodName params httpMethod with
    | (true, u, ps) => (true, u, ps)
    | (false, _, ps) => geturlFix iter rest url controllName methodName ps httpMethod

end

mutual

/-- All leaves of a tree, in traversal order (literal children first,
then the wildcard child, then the node's own leaves): the domain over
which "no leaf matches" is stated. -/
def allLeaves : Tree → List Leaf
  | Tree.node fixrouters wildcard leaves =>
    allLeavesFix fixrouters ++
      (match wildcard with
       | some wt => allLeaves wt
       | none => []) ++ leaves

/-- `allLeaves` over the literal children. -/
def allLeavesFix : List (String × Tree) → List Leaf
  | [] => []
  | (_, sub) :: rest => allLeaves sub ++ allLeavesFix rest

end

/-- Key/value flattening of `URLFor`'s variadic arguments
(router.go 444-453). -/
def urlforParams : List String → AList → AList
  | [], m => m
  | [_], m => m
  | k :: v :: rest, m => urlforParams rest (alSet m k v)

/-- The `range p.routers` loop of `URLFor` (router.go 456-461); the
verb map is embedded as an ordered list (its Go iteration order is
unspecified; the properties proved below do not depend on it).  The
parameter map is shared across iterations. -/
def urlforLoop (iter : AList → List (String × String)) :
    List (String × Tree) → String → String → AList → String
  | [], _, _, _ => ""
  | (m, t) :: rest, controllName, methodName, ps =>
    match geturl iter t "/" controllName methodName ps m with
    | (true, u, _) => u
    | (false, _, ps') => urlforLoop iter rest controllName methodName ps'

/-- `ControllerRegister.URLFor` (router.go 433-463): split the endpoint
on `.`, reject endpoints without a dot and odd key/value lists (with a
warning, returning `""`), then try every verb's tree. -/
def URLFor (routers : List (String × Tree)) (iter : AList → List (String × String))
    (endpoint : String) (values : List String) : String :=
  if (goSplit endpoint '.').length ≤ 1 then ""
  else if values.length % 2 ≠ 0 then ""
  else
    urlforLoop iter routers
      (String.intercalate "/" (goSplit endpoint '.').dropLast)
      ((goSplit endpoint '.').getLastD "")
      (urlforParams values [])

/-! ## Concrete fixtures

Small concrete configurations, registrations and requests used to
evaluate the embedding on closed inputs. -/

def cfgPlain : Config :=
  { runMode := "prod", routerCaseSensitive := false, sessionOn := false,
    sessionStartFails := false, staticCb := [] }

def regEmpty : Register :=
  { enableFilter := false, filters := fun _ => [], routers := fun _ => none,
    controllerBehavior := fun _ _ => [] }

/-- A raw-handler route at `/files`. -/
def ciRawFiles : ControllerInfo :=
  { pattern := "/files", ctrlPkgPath := "", ctrlName := "", methods := [],
    routerType := RouterType.handler, handlerEffect := [], runFunctionCb := [] }

/-- A match function whose tree recognizes `/files/a/b/c` with a splat. -/
def matchSplat : MatchFn := fun p =>
  if p = "/files/a/b/c" then (some ciRawFiles, some [(":splat", "a/b/c")])
  else (none, none)

/-- Registration with `matchSplat` mounted in the PUT tree only. -/
def regSplat : Register :=
  { enableFilter := false, filters := fun _ => [],
    routers := fun v => if v = "PUT" then some matchSplat else none,
    controllerBehavior := fun _ _ => [] }

def reqOverride : Request :=
  { method := "POST", path := "/files/a/b/c", methodOverride := "PUT" }

/-- A Function-Handler route at `/api` accepting only POST. -/
def ciFn : ControllerInfo :=
  { pattern := "/api", ctrlPkgPath := "", ctrlName := "",
    methods := [("POST", "POST")], routerType := RouterType.restful,
    handlerEffect := [], runFunctionCb := [] }

/-- Registration whose GET tree matches `/api` with the POST-only
Function-Handler. -/
def regFn : Register :=
  { enableFilter := false, filters := fun _ => [],
    routers := fun v =>
      if v = "GET" then some (fun p => if p = "/api" then (some ciFn, none) else (none, none))
      else none,
    controllerBehavior := fun _ _ => [] }

def reqGetApi : Request := { method := "GET", path := "/api", methodOverride := "" }

def reqGetX : Request := { method := "GET", path := "/x", methodOverride := "" }

/-- An after-exec filter that halts on started output and writes. -/
def filterAE : FilterRouter :=
  { pattern := "ae", returnOnOutput := true, valid := fun _ => some [],
    cb := [CbOp.write] }

/-- A finish filter whose run would be recorded in the trace. -/
def filterFin : FilterRouter :=
  { pattern := "fin", returnOnOutput := false, valid := fun _ => some [], cb := [] }

/-- Registration for the after-exec/finish interaction: a raw-handler
route on GET, one after-exec filter that writes and halts, one finish
filter. -/
def regC4 : Register :=
  { enableFilter := true,
    filters := fun pos =>
      if pos = AfterExec then [filterAE]
      else if pos = FinishRouter then [filterFin] else [],
    routers := fun v =>
      if v = "GET" then some (fun _ => (some ciRawFiles, none)) else none,
    controllerBehavior := fun _ _ => [] }

/-- A before-router filter with the halt flag that writes a response. -/
def filterBR : FilterRouter :=
  { pattern := "br", returnOnOutput := true, valid := fun _ => some [],
    cb := [CbOp.write] }

/-- Registration with a writing before-router filter and a GET route
that would match everything. -/
def regC5 : Register :=
  { enableFilter := true,
    filters := fun pos => if pos = BeforeRouter then [filterBR] else [],
    routers := fun v =>
      if v = "GET" then some (fun _ => (some ciRawFiles, none)) else none,
    controllerBehavior := fun _ _ => [] }

/-- A beego-type controller route for the reverse resolver: `/user/:id`
mapped `GET → Get` on `pkg.UserController`. -/
def ciUser : ControllerInfo :=
  { pattern := "/user/:id", ctrlPkgPath := "pkg", ctrlName := "UserController",
    methods := [("GET", "Get")], routerType := RouterType.beego,
    handlerEffect := [], runFunctionCb := [] }

/-- A reverse-resolver leaf with no wildcards and no regex. -/
def leafUserPlain : Leaf :=
  { runObject := some ciUser, wildcards := [], regexps := none }

/-- A reverse-resolver leaf with the single wildcard `:id`. -/
def leafUserId : Leaf :=
  { runObject := some ciUser, wildcards := [":id"], regexps := none }

/-! # Theorems

Helper lemmas first, then one theorem (plus counterexample/witness
where required) per claim. -/

@[simp] theorem alGet_nil (k : String) : alGet [] k = none := rfl

theorem alGet_alSet_self (m : AList) (k v : String) :
    alGet (alSet m k v) k = some v := by
  induction m with
  | nil => simp [alSet, alGet]
  | cons hd tl ih =>
    by_cases h : hd.1 = k
    · simp [alSet, alGet, h]
    · simp [alSet, alGet, h, ih]

theorem alGet_alSet_ne (m : AList) (k k' v : String) (h : k' ≠ k) :
    alGet (alSet m k v) k' = alGet m k' := by
  induction m with
  | nil =>
    simp only [alSet, alGet, if_neg (fun hh : k = k' => h hh.symm)]
  | cons hd tl ih =>
    obtain ⟨k1, v1⟩ := hd
    by_cases hk : k1 = k
    · subst hk
      simp only [alSet, if_pos rfl, alGet, if_neg (fun hh : k1 = k' => h hh.symm)]
    · simp only [alSet, if_neg hk, alGet, ih]

theorem digitChar_inj (a b : Nat) (ha : a < 10) (hb : b < 10)
    (h : Nat.digitChar a = Nat.digitChar b) : a = b := by
  interval_cases a <;> interval_cases b <;> first | rfl | exact absurd h (by decide)

theorem itoaAux_inj (a b : Nat) (h : itoaAux a = itoaAux b) : a = b := by
  induction a using Nat.strong_induction_on generalizing b with
  | _ a ih =>
    match a, b with
    | 0, 0 => rfl
    | 0, b + 1 => simp [itoaAux] at h
    | a + 1, 0 => simp [itoaAux] at h
    | a + 1, b + 1 =>
      rw [itoaAux, itoaAux] at h
      injection h with h1 h2
      have hmod : (a + 1) % 10 = (b + 1) % 10 :=
        digitChar_inj _ _ (Nat.mod_lt _ (by decide)) (Nat.mod_lt _ (by decide)) h1
      have hdiv : (a + 1) / 10 = (b + 1) / 10 :=
        ih ((a + 1) / 10) (Nat.div_lt_self (Nat.succ_pos a) (by decide)) _ h2
      have := Nat.div_add_mod (a + 1) 10
      omega

theorem itoaAux_zero : itoaAux 0 = [] := by rw [itoaAux]

theorem itoaAux_ne_single_zero (b : Nat) (hb : b ≠ 0) (h : itoaAux b = ['0']) : False := by
  match b with
  | 0 => exact hb rfl
  | b' + 1 =>
    rw [itoaAux] at h
    injection h with h1 h2
    have hm : (b' + 1) % 10 = 0 :=
      digitChar_inj _ 0 (Nat.mod_lt _ (by decide)) (by decide)
        (h1.trans (by decide : '0' = Nat.digitChar 0))
    have hd : (b' + 1) / 10 = 0 := itoaAux_inj _ 0 (h2.trans itoaAux_zero.symm)
    have := Nat.div_add_mod (b' + 1) 10
    omega

theorem itoa_inj (a b : Nat) (h : itoa a = itoa b) : a = b := by
  unfold itoa at h
  by_cases ha : a = 0 <;> by_cases hb : b = 0
  · omega
  · rw [if_pos ha, if_neg hb] at h
    have hd : ('0' :: []) = (itoaAux b).reverse := congrArg String.data h
    have h2 : itoaAux b = ['0'] := by
      have h3 := congrArg List.reverse hd
      simpa using h3.symm
    exact (itoaAux_ne_single_zero b hb h2).elim
  · rw [if_neg ha, if_pos hb] at h
    have hd : ('0' :: []) = (itoaAux a).reverse := congrArg String.data h.symm
    have h2 : itoaAux a = ['0'] := by
      have h3 := congrArg List.reverse hd
      simpa using h3.symm
    exact (itoaAux_ne_single_zero a ha h2).elim
  · rw [if_neg ha, if_neg hb] at h
    have hrev : (itoaAux a).reverse = (itoaAux b).reverse := congrArg String.data h
    exact itoaAux_inj a b (by simpa using congrArg List.reverse hrev)

/-! ## Claim C6 -/

/-- Claim C6 counterexample: with panic recovery enabled but error-page
display (`EnableErrorsShow`) disabled, a panic whose textual identity
equals the registered exception code `"404"` does not run that
exception handler — it is logged instead — contrary to the claim that
recovery-enabled plus a registered textual identity suffices. -/
theorem recoverPanic_counterexample :
    recoverPanic true false ["404"] "prod" (PanicVal.other "404") = RecoverAction.logOnly ∧
    recoverPanic true false ["404"] "prod" (PanicVal.other "404") ≠
      RecoverAction.runErrorHandler "404" := by
  decide

/-- Claim C6 (amended): for every panic escaping the request flow, the
abort sentinel is swallowed silently; if recovery is disabled the panic
re-propagates; if recovery is enabled, *error-page display is enabled*,
and the panic value's textual identity equals a registered exception
code, that exception handler runs and recovery stops; otherwise the
error is logged critically with the captured call stack and, only in
development run mode, a diagnostic page is rendered. -/
theorem recoverPanic_spec (re es : Bool) (maps : List String) (rm t : String) :
    recoverPanic re es maps rm PanicVal.abortSentinel = RecoverAction.swallow ∧
    (re = false → recoverPanic re es maps rm (PanicVal.other t) = RecoverAction.repropagate) ∧
    (re = true → es = true → t ∈ maps →
      recoverPanic re es maps rm (PanicVal.other t) = RecoverAction.runErrorHandler t) ∧
    (re = true → ¬(es = true ∧ t ∈ maps) → rm = "dev" →
      recoverPanic re es maps rm (PanicVal.other t) = RecoverAction.logAndShow) ∧
    (re = true → ¬(es = true ∧ t ∈ maps) → rm ≠ "dev" →
      recoverPanic re es maps rm (PanicVal.other t) = RecoverAction.logOnly) := by
  refine ⟨rfl, ?_, ?_, ?_, ?_⟩ <;> intros <;> simp_all [recoverPanic]

/-- Witness for `recoverPanic_spec` at concrete inputs. -/
theorem recoverPanic_spec_witness :
    recoverPanic true true ["404"] "dev" PanicVal.abortSentinel = RecoverAction.swallow ∧
    recoverPanic true true ["404"] "dev" (PanicVal.other "404") =
      RecoverAction.runErrorHandler "404" ∧
    recoverPanic false true ["404"] "dev" (PanicVal.other "500") = RecoverAction.repropagate ∧
    recoverPanic true true [] "dev" (PanicVal.other "boom") = RecoverAction.logAndShow ∧
    recoverPanic true true [] "prod" (PanicVal.other "boom") = RecoverAction.logOnly := by
  exact ⟨(recoverPanic_spec true true ["404"] "dev" "404").1,
    (recoverPanic_spec true true ["404"] "dev" "404").2.2.1 rfl rfl (by decide),
    (recoverPanic_spec false true ["404"] "dev" "500").2.1 rfl,
    (recoverPanic_spec true true [] "dev" "boom").2.2.2.1 rfl (by decide) rfl,
    (recoverPanic_spec true true [] "prod" "boom").2.2.2.2 rfl (by decide) (by decide)⟩

/-! ## Claim C7 -/

/-- Claim C7 counterexample: a request state in which the status `503`
was explicitly set *and* already written to the response through the
wrapper.  Finalization nevertheless writes the status header again
(Go's "superfluous WriteHeader"), refuting "only a set-but-unwritten
status is written at finalization". -/
theorem adminBlock_counterexample :
    (adminBlock { w := { writer := [UEvent.header 503], started := true, status := 503 },
                  params := none, outputStatus := 503,
                  runController := none, runMethod := "" }).1.w.writer =
      [UEvent.header 503, UEvent.header 503] ∧
    (adminBlock { w := { writer := [UEvent.header 503], started := true, status := 503 },
                  params := none, outputStatus := 503,
                  runController := none, runMethod := "" }).2 =
      [Ev.adminReached, Ev.adminStatusWrite 503] := by
  decide

/-- Claim C7 (amended): during finalization, if a status code was
explicitly set on the Request Context's output (nonzero), the
Dispatcher writes that status header to the underlying response —
regardless of whether a header was already written; if no status was
set, finalization writes no header. -/
theorem adminBlock_spec (c : Ctx) :
    (c.outputStatus ≠ 0 →
      (adminBlock c).1 =
        { c with w := { c.w with writer := c.w.writer ++ [UEvent.header c.outputStatus] } } ∧
      (adminBlock c).2 = [Ev.adminReached, Ev.adminStatusWrite c.outputStatus]) ∧
    (c.outputStatus = 0 → adminBlock c = (c, [Ev.adminReached])) := by
  constructor
  · intro h
    simp [adminBlock, h]
  · intro h
    simp [adminBlock, h]

/-- Witness for `adminBlock_spec` at concrete contexts. -/
theorem adminBlock_spec_witness :
    (adminBlock { w := { writer := [], started := false, status := 0 }, params := none,
                  outputStatus := 404, runController := none, runMethod := "" }).2 =
      [Ev.adminReached, Ev.adminStatusWrite 404] ∧
    adminBlock initCtx = (initCtx, [Ev.adminReached]) := by
  exact ⟨((adminBlock_spec _).1 (by decide)).2, (adminBlock_spec initCtx).2 rfl⟩

/-! ## Claim C9 -/

/-- Claim C9 counterexample: registering a raw handler at `/files` with
the subpath option *explicitly `false`* still appends the internal
catch-all segment, because `Handler` only checks that the first option
is a boolean, never its value (router.go 354-358). -/
theorem handler_matchSubpaths_false_counterexample :
    handlerRegisteredPattern "/files" [HandlerOpt.boolOpt false] = "/files/?:all" ∧
    handlerRegisteredPattern "/files" [HandlerOpt.boolOpt false] ≠ "/files" := by
  decide

/-- Claim C9 (amended): registering a raw handler appends the internal
catch-all segment `?:all` exactly when a first option of boolean type
is passed — of either value; with no options, or a non-boolean first
option, only the exact pattern is registered. -/
theorem handlerRegisteredPattern_spec (p : String) (b : Bool) (rest : List HandlerOpt) :
    handlerRegisteredPattern p [] = p ∧
    handlerRegisteredPattern p (HandlerOpt.boolOpt b :: rest) = pathJoin p "?:all" ∧
    handlerRegisteredPattern p (HandlerOpt.otherOpt :: rest) = p :=
  ⟨rfl, rfl, rfl⟩

/-! ## Monotonicity helpers for the `started` flag -/

theorem applyCbOp_started_mono (c : Ctx) (op : CbOp) (h : c.w.started = true) :
    (applyCbOp c op).w.started = true := by
  cases op <;> simp [applyCbOp, rwWrite, rwWriteHeader, h]

theorem runCb_started_mono (ops : List CbOp) (c : Ctx) (h : c.w.started = true) :
    (runCb c ops).w.started = true := by
  induction ops generalizing c with
  | nil => exact h
  | cons op rest ih =>
    show (List.foldl applyCbOp c (op :: rest)).w.started = true
    rw [List.foldl_cons]
    exact ih _ (applyCbOp_started_mono c op h)

theorem doFilterList_started_mono (up : String) (fs : List FilterRouter) (c : Ctx)
    (h : c.w.started = true) : ((doFilterList up fs c).2.1).w.started = true := by
  induction fs generalizing c with
  | nil => simpa [doFilterList] using h
  | cons f rest ih =>
    rw [doFilterList]
    split
    · exact h
    · cases hv : f.valid up with
      | some ps =>
        simp only [hv]
        split
        · exact runCb_started_mono _ _ h
        · exact ih _ (runCb_started_mono _ _ h)
      | none =>
        simp only [hv]
        split
        · exact h
        · exact ih _ h

theorem doFilter_started_mono (reg : Register) (pos : Nat) (up : String) (c : Ctx)
    (h : c.w.started = true) : ((doFilter reg pos up c).2.1).w.started = true := by
  unfold doFilter
  by_cases he : reg.enableFilter = true
  · simp only [if_pos he]
    exact doFilterList_started_mono up _ c h
  · simp only [if_neg he]
    exact h

theorem adminBlock_w_started (c : Ctx) : (adminBlock c).1.w.started = c.w.started := by
  by_cases h : c.outputStatus ≠ 0 <;> simp [adminBlock, h]

theorem serveTail_started_mono (reg : Register) (up : String) (c : Ctx)
    (h : c.w.started = true) : (serveTail reg up c).1.w.started = true := by
  unfold serveTail
  split
  next c1 e1 heq =>
    have h1 : c1.w.started = true := by
      have hm := doFilter_started_mono reg AfterExec up c h
      rw [heq] at hm
      exact hm
    simpa [withEvs, adminBlock_w_started] using h1
  next c1 e1 heq =>
    have h1 : c1.w.started = true := by
      have hm := doFilter_started_mono reg AfterExec up c h
      rw [heq] at hm
      exact hm
    have h2 := doFilter_started_mono reg FinishRouter up c1 h1
    simpa [withEvs, adminBlock_w_started] using h2

theorem serveAfterLookup_started_mono (reg : Register) (req : Request) (up : String)
    (ri : Option ControllerInfo) (rc : Option String) (rm : String) (fr : Bool) (c : Ctx)
    (h : c.w.started = true) :
    (serveAfterLookup reg req up ri rc rm fr c).1.w.started = true := by
  unfold serveAfterLookup
  split
  · simpa [withEvs, adminBlock_w_started] using h
  · split
    next c1 e1 heq =>
      have h1 : c1.w.started = true := by
        have hm := doFilter_started_mono reg BeforeExec up c h
        rw [heq] at hm
        exact hm
      simpa [withEvs, adminBlock_w_started] using h1
    next c1 e1 heq =>
      have h1 : c1.w.started = true := by
        have hm := doFilter_started_mono reg BeforeExec up c h
        rw [heq] at hm
        exact hm
      cases ri with
      | some info =>
        cases hrt : info.routerType
        · simp only [hrt, withEvs]
          exact serveTail_started_mono _ _ _ (runCb_started_mono _ _ h1)
        · simp only [hrt]
          split
          · simp only [withEvs]
            exact serveTail_started_mono _ _ _ (runCb_started_mono _ _ h1)
          · simpa [withEvs, adminBlock_w_started] using h1
        · simp only [hrt, withEvs]
          exact serveTail_started_mono _ _ _ (by simpa using h1)
      | none =>
        simp only [withEvs]
        exact serveTail_started_mono _ _ _ (runCb_started_mono _ _ h1)

theorem lookupStage_w (routers : String → Option MatchFn) (m q up : String) (c : Ctx) :
    ((lookupStage routers m q up c).2.1).w = c.w := by
  cases hr : routers (overrideMethod m q) with
  | none => simp [lookupStage, hr]
  | some t =>
    rcases ht : t up with ⟨ro, p⟩
    cases ro with
    | none => simp [lookupStage, hr, ht]
    | some r => cases p <;> simp [lookupStage, hr, ht]

theorem serveFromBeforeRouter_started_mono (reg : Register) (req : Request) (up : String)
    (c : Ctx) (h : c.w.started = true) :
    (serveFromBeforeRouter reg req up c).1.w.started = true := by
  unfold serveFromBeforeRouter
  split
  next c1 e1 heq =>
    have h1 : c1.w.started = true := by
      have hm := doFilter_started_mono reg BeforeRouter up c h
      rw [heq] at hm
      exact hm
    simpa [withEvs, adminBlock_w_started] using h1
  next c1 e1 heq =>
    have h1 : c1.w.started = true := by
      have hm := doFilter_started_mono reg BeforeRouter up c h
      rw [heq] at hm
      exact hm
    split
    · simp only [withEvs]
      exact serveAfterLookup_started_mono _ _ _ _ _ _ _ _ h1
    · simp only [withEvs]
      refine serveAfterLookup_started_mono _ _ _ _ _ _ _ _ ?_
      rw [lookupStage_w]
      exact h1

/-! ## Filter-point helpers (for C3 and C5) -/

theorem mergeParams_getD (ps : AList) (cur : Option AList) :
    (mergeParams cur ps).getD [] =
      ps.foldl (fun m kv => alSet m kv.1 kv.2) (cur.getD []) := by
  induction ps generalizing cur with
  | nil => rfl
  | cons kv tl ih =>
    show (mergeParams (some (alSet (cur.getD []) kv.1 kv.2)) tl).getD [] = _
    rw [ih]
    rfl

theorem alGet_foldl_alSet (kvs : AList) (m : AList) (k : String) :
    alGet (kvs.foldl (fun m kv => alSet m kv.1 kv.2) m) k =
      (match kvs.reverse.find? (fun kv => kv.1 == k) with
       | some kv => some kv.2
       | none => alGet m k) := by
  induction kvs generalizing m with
  | nil => simp
  | cons hd tl ih =>
    obtain ⟨k1, v1⟩ := hd
    rw [List.foldl_cons, ih, List.reverse_cons, List.find?_append]
    cases htl : tl.reverse.find? (fun kv => kv.1 == k) with
    | some kv => simp [Option.or]
    | none =>
      by_cases hk : k1 = k
      · subst hk
        simp [Option.or, List.find?_cons, alGet_alSet_self]
      · simp [Option.or, List.find?_cons, hk,
          alGet_alSet_ne m k1 k v1 (fun hh => hk hh.symm)]

theorem doFilterList_halt (up : String) (f : FilterRouter) (fs : List FilterRouter) (c : Ctx)
    (hf : f.returnOnOutput = true) (hs : c.w.started = true) :
    doFilterList up (f :: fs) c = (true, c, []) := by
  rw [doFilterList, if_pos ⟨hf, hs⟩]

theorem doFilterList_append_stop (up : String) (xs ys : List FilterRouter) (c : Ctx)
    (h : (doFilterList up xs c).1 = true) :
    doFilterList up (xs ++ ys) c = doFilterList up xs c := by
  induction xs generalizing c with
  | nil => simp [doFilterList] at h
  | cons f xs ih =>
    simp only [List.cons_append, doFilterList, List.append_eq] at h ⊢
    by_cases hh : f.returnOnOutput = true ∧ c.w.started = true
    · simp only [if_pos hh]
    · simp only [if_neg hh] at h ⊢
      cases hv : f.valid up with
      | some ps =>
        simp only [hv] at h ⊢
        by_cases hh2 : f.returnOnOutput = true ∧
            (runCb { c with params := mergeParams c.params ps } f.cb).w.started = true
        · simp only [if_pos hh2]
        · simp only [if_neg hh2] at h ⊢
          have h' : (doFilterList up xs
              (runCb { c with params := mergeParams c.params ps } f.cb)).1 = true := by
            simpa using h
          rw [ih _ h']
      | none =>
        simp only [hv] at h ⊢
        simp only [if_neg hh] at h ⊢
        have h' : (doFilterList up xs c).1 = true := by simpa using h
        rw [ih _ h']

theorem doFilterList_append_cont (up : String) (xs ys : List FilterRouter) (c c' : Ctx)
    (e : List Ev) (h : doFilterList up xs c = (false, c', e)) :
    doFilterList up (xs ++ ys) c =
      ((doFilterList up ys c').1, (doFilterList up ys c').2.1,
       e ++ (doFilterList up ys c').2.2) := by
  induction xs generalizing c c' e with
  | nil =>
    rw [doFilterList] at h
    injection h with h1 h2
    injection h2 with h2 h3
    subst h2
    subst h3
    simp
  | cons f xs ih =>
    simp only [List.cons_append, doFilterList, List.append_eq] at h ⊢
    by_cases hh : f.returnOnOutput = true ∧ c.w.started = true
    · rw [if_pos hh] at h
      exact absurd (congrArg Prod.fst h) (by simp)
    · simp only [if_neg hh] at h ⊢
      cases hv : f.valid up with
      | some ps =>
        simp only [hv] at h ⊢
        by_cases hh2 : f.returnOnOutput = true ∧
            (runCb { c with params := mergeParams c.params ps } f.cb).w.started = true
        · rw [if_pos hh2] at h
          exact absurd (congrArg Prod.fst h) (by simp)
        · simp only [if_neg hh2] at h ⊢
          rcases hxs : doFilterList up xs
              (runCb { c with params := mergeParams c.params ps } f.cb) with ⟨bx, cx, ex⟩
          rw [hxs] at h
          injection h with h1 h2
          injection h2 with h2 h3
          subst h1
          subst h2
          have hr := ih _ _ _ hxs
          rw [hr]
          simp only [← h3]
          simp [List.append_assoc]
      | none =>
        simp only [hv] at h ⊢
        simp only [if_neg hh] at h ⊢
        rcases hxs : doFilterList up xs c with ⟨bx, cx, ex⟩
        rw [hxs] at h
        injection h with h1 h2
        injection h2 with h2 h3
        subst h1
        subst h2
        have hr := ih _ _ _ hxs
        rw [hr]
        simp only [← h3]
        simp

/-! ## Claim C3 -/

/-- Claim C3: at a filter execution point the registered filters are
processed in append (insertion) order; a filter with the halt flag set
aborts the point with "stop" when the response has already started; a
matched filter merges its captured parameters into the context's map
with last write winning and runs its callback (the halt condition being
re-checked afterwards, skipping the remaining filters on a post-callback
stop); an unmatched filter changes nothing; a point with no filters is a
no-op. -/
theorem filter_point_spec :
    (∀ up c, doFilterList up [] c = (false, c, [])) ∧
    (∀ up (f : FilterRouter) fs c, f.returnOnOutput = true → c.w.started = true →
      doFilterList up (f :: fs) c = (true, c, [])) ∧
    (∀ up xs ys c,
      ((doFilterList up xs c).1 = true →
        doFilterList up (xs ++ ys) c = doFilterList up xs c) ∧
      (∀ c' e, doFilterList up xs c = (false, c', e) →
        doFilterList up (xs ++ ys) c =
          ((doFilterList up ys c').1, (doFilterList up ys c').2.1,
           e ++ (doFilterList up ys c').2.2))) ∧
    (∀ cur ps k,
      alGet ((mergeParams cur ps).getD []) k =
        (match ps.reverse.find? (fun kv => kv.1 == k) with
         | some kv => some kv.2
         | none => alGet (cur.getD []) k)) ∧
    (∀ up (f : FilterRouter) fs c ps, ¬(f.returnOnOutput = true ∧ c.w.started = true) →
      f.valid up = some ps →
      Ev.filterRun f.pattern ∈ (doFilterList up (f :: fs) c).2.2 ∧
      (f.returnOnOutput = true →
        (runCb { c with params := mergeParams c.params ps } f.cb).w.started = true →
        ∀ fs', doFilterList up (f :: fs) c = doFilterList up (f :: fs') c)) ∧
    (∀ up (f : FilterRouter) fs c, ¬(f.returnOnOutput = true ∧ c.w.started = true) →
      f.valid up = none →
      doFilterList up (f :: fs) c = doFilterList up fs c) := by
  refine ⟨fun up c => rfl, doFilterList_halt, ?_, ?_, ?_, ?_⟩
  · intro up xs ys c
    exact ⟨doFilterList_append_stop up xs ys c,
      fun c' e h => doFilterList_append_cont up xs ys c c' e h⟩
  · intro cur ps k
    rw [mergeParams_getD]
    exact alGet_foldl_alSet ps (cur.getD []) k
  · intro up f fs c ps hh hv
    constructor
    · rw [doFilterList, if_neg hh]
      simp only [hv]
      split
      · simp
      · simp
    · intro hf hs fs'
      rw [doFilterList, if_neg hh]
      rw [doFilterList, if_neg hh]
      simp only [hv]
      rw [if_pos ⟨hf, hs⟩, if_pos ⟨hf, hs⟩]
  · intro up f fs c hh hv
    rw [doFilterList, if_neg hh]
    simp only [hv]
    rw [if_neg hh]
    rcases hr : doFilterList up fs c with ⟨b, c1, e1⟩
    simp

/-- Witness for `filter_point_spec` at concrete inputs. -/
theorem filter_point_spec_witness :
    doFilterList "/x"
        [{ pattern := "p", returnOnOutput := true,
           valid := fun _ => some [], cb := [] }]
        { w := { writer := [UEvent.body], started := true, status := 0 }, params := none,
          outputStatus := 0, runController := none, runMethod := "" } =
      (true,
        { w := { writer := [UEvent.body], started := true, status := 0 }, params := none,
          outputStatus := 0, runController := none, runMethod := "" }, []) ∧
    alGet ((mergeParams (some [("k", "old"), ("a", "1")]) [("k", "mid"), ("k", "new")]).getD [])
        "k" = some "new" ∧
    Ev.filterRun "q" ∈
      (doFilterList "/x"
        [{ pattern := "q", returnOnOutput := false,
           valid := fun _ => some [("k", "v")], cb := [] }] initCtx).2.2 := by
  refine ⟨filter_point_spec.2.1 "/x" _ [] _ rfl rfl, ?_, ?_⟩
  · have := filter_point_spec.2.2.2.1 (some [("k", "old"), ("a", "1")])
      [("k", "mid"), ("k", "new")] "k"
    rw [this]
    decide
  · exact (filter_point_spec.2.2.2.2.1 "/x" _ [] initCtx [("k", "v")]
      (by simp [initCtx]) rfl).1

/-! ## Claim C10 -/

/-- Claim C10: within a request the response-started flag of the
wrapper is monotone — it starts `false`, `Write` and `WriteHeader` set
it, `Header`, `Flush` and `Hijack` leave the wrapper unchanged, no
wrapper operation resets it, callback operations never reset it, and
the dispatch pipeline from the before-router point onwards never resets
it. -/
theorem responseWriter_started_monotone :
    initCtx.w.started = false ∧
    (∀ w, (rwApply w RWOp.write).started = true) ∧
    (∀ w code, (rwApply w (RWOp.writeHeader code)).started = true) ∧
    (∀ w, rwApply w RWOp.headerMap = w ∧ rwApply w RWOp.flush = w ∧ rwApply w RWOp.hijack = w) ∧
    (∀ w op, w.started = true → (rwApply w op).started = true) ∧
    (∀ c ops, c.w.started = true → (runCb c ops).w.started = true) ∧
    (∀ reg req urlPath c, c.w.started = true →
      (serveFromBeforeRouter reg req urlPath c).1.w.started = true) := by
  refine ⟨rfl, fun w => rfl, fun w code => rfl, fun w => ⟨rfl, rfl, rfl⟩, ?_, ?_, ?_⟩
  · intro w op h
    cases op <;> simp [rwApply, rwWrite, rwWriteHeader, h]
  · intro c ops h
    exact runCb_started_mono ops c h
  · intro reg req urlPath c h
    exact serveFromBeforeRouter_started_mono reg req urlPath c h

/-- Witness for `responseWriter_started_monotone` at concrete inputs. -/
theorem responseWriter_started_monotone_witness :
    (rwApply { writer := [], started := true, status := 0 } RWOp.flush).started = true ∧
    ((serveFromBeforeRouter
        { enableFilter := false, filters := fun _ => [],
          routers := fun _ => none, controllerBehavior := fun _ _ => [] }
        { method := "GET", path := "/x", methodOverride := "" } "/x"
        { w := { writer := [UEvent.body], started := true, status := 0 }, params := none,
          outputStatus := 0, runController := none, runMethod := "" }).1).w.started = true := by
  exact ⟨responseWriter_started_monotone.2.2.2.2.1 _ RWOp.flush rfl,
    responseWriter_started_monotone.2.2.2.2.2.2 _ _ _ _ rfl⟩

/-! ## Stage-unfolding and trace-classification helpers -/

theorem doFilterList_events (up : String) (fs : List FilterRouter) (c : Ctx) :
    ∀ ev ∈ (doFilterList up fs c).2.2, ∃ pat, ev = Ev.filterRun pat := by
  induction fs generalizing c with
  | nil => intro ev h; simp [doFilterList] at h
  | cons f rest ih =>
    intro ev h
    rw [doFilterList] at h
    by_cases hh : f.returnOnOutput = true ∧ c.w.started = true
    · rw [if_pos hh] at h
      simp at h
    · rw [if_neg hh] at h
      cases hv : f.valid up with
      | some ps =>
        simp only [hv] at h
        by_cases hh2 : f.returnOnOutput = true ∧
            (runCb { c with params := mergeParams c.params ps } f.cb).w.started = true
        · rw [if_pos hh2] at h
          simp at h
          exact ⟨f.pattern, h⟩
        · rw [if_neg hh2] at h
          simp only [List.mem_append, List.mem_singleton, List.cons_append,
            List.nil_append, List.mem_cons] at h
          rcases h with h | h
          · exact ⟨f.pattern, h⟩
          · exact ih _ ev h
      | none =>
        simp only [hv] at h
        rw [if_neg hh] at h
        simp only [List.nil_append] at h
        exact ih _ ev h

theorem doFilter_events (reg : Register) (pos : Nat) (up : String) (c : Ctx) :
    ∀ ev ∈ (doFilter reg pos up c).2.2, ∃ pat, ev = Ev.filterRun pat := by
  unfold doFilter
  by_cases he : reg.enableFilter = true
  · rw [if_pos he]
    exact doFilterList_events up _ c
  · rw [if_neg he]
    intro ev h
    simp at h

theorem adminBlock_events (c : Ctx) :
    (adminBlock c).2 = [Ev.adminReached] ∨
      (adminBlock c).2 = [Ev.adminReached, Ev.adminStatusWrite c.outputStatus] := by
  unfold adminBlock
  by_cases h : c.outputStatus ≠ 0
  · rw [if_pos h]
    right
    rfl
  · rw [if_neg h]
    left
    rfl

theorem forall_mem_append_ev {P : Ev → Prop} {A B : List Ev}
    (hA : ∀ ev ∈ A, P ev) (hB : ∀ ev ∈ B, P ev) : ∀ ev ∈ A ++ B, P ev := by
  intro ev h
  rcases List.mem_append.mp h with h | h
  · exact hA ev h
  · exact hB ev h

theorem adminBlock_events_classify (c : Ctx) :
    ∀ ev ∈ (adminBlock c).2,
      ev = Ev.adminReached ∨ ∃ cd, ev = Ev.adminStatusWrite cd := by
  rcases adminBlock_events c with h | h <;> rw [h] <;> intro ev hm
  · exact Or.inl (List.mem_singleton.mp hm)
  · rcases List.mem_cons.mp hm with h' | h'
    · exact Or.inl h'
    · exact Or.inr ⟨_, List.mem_singleton.mp h'⟩

theorem lookupStage_events (routers : String → Option MatchFn) (m q up : String) (c : Ctx) :
    (lookupStage routers m q up c).2.2 = [] ∨
      (lookupStage routers m q up c).2.2 = [Ev.trieLookup (overrideMethod m q) up] := by
  cases hr : routers (overrideMethod m q) with
  | none => left; simp [lookupStage, hr]
  | some t =>
    rcases htu : t up with ⟨ro, p⟩
    cases ro with
    | none => right; simp [lookupStage, hr, htu]
    | some r => cases p <;> (right; simp [lookupStage, hr, htu])

theorem lookupStage_trace_of_some (routers : String → Option MatchFn) (m q up : String)
    (c : Ctx) (t : MatchFn) (ht : routers (overrideMethod m q) = some t) :
    (lookupStage routers m q up c).2.2 = [Ev.trieLookup (overrideMethod m q) up] := by
  simp only [lookupStage, ht]
  rcases htu : t up with ⟨ro, p⟩
  cases ro with
  | none => simp
  | some r => cases p <;> simp

theorem lookupStage_found (routers : String → Option MatchFn) (m q up : String) (c : Ctx)
    (t : MatchFn) (r : ControllerInfo) (p : Option AList)
    (ht : routers (overrideMethod m q) = some t) (htu : t up = (some r, p)) :
    (lookupStage routers m q up c).1 = some r ∧
      (lookupStage routers m q up c).2.2 = [Ev.trieLookup (overrideMethod m q) up] := by
  cases p <;> (constructor <;> simp [lookupStage, ht, htu])

theorem lookupStage_match_params (routers : String → Option MatchFn) (m q up : String)
    (c : Ctx) (t : MatchFn) (r : ControllerInfo) (p : AList)
    (ht : routers (overrideMethod m q) = some t) (htu : t up = (some r, some p)) :
    lookupStage routers m q up c =
      (some r, { c with params := some (explodeSplat p) },
       [Ev.trieLookup (overrideMethod m q) up]) := by
  simp [lookupStage, ht, htu]

theorem lookupStage_depends_only_on_override (r1 r2 : String → Option MatchFn)
    (m q up : String) (c : Ctx)
    (h : r1 (overrideMethod m q) = r2 (overrideMethod m q)) :
    lookupStage r1 m q up c = lookupStage r2 m q up c := by
  unfold lookupStage
  rw [h]

theorem serve_unfold (cfg : Config) (reg : Register) (req : Request) (c1 : Ctx)
    (e1 : List Ev)
    (hm : req.method ∈ HTTPMETHOD)
    (h1 : doFilter reg BeforeStatic (urlPathOf cfg req) initCtx = (false, c1, e1))
    (h2 : (runCb c1 cfg.staticCb).w.started = false)
    (h3 : ¬(cfg.sessionOn = true ∧ cfg.sessionStartFails = true)) :
    serve cfg reg req =
      withEvs (e1 ++ [Ev.staticServe])
        (serveFromBeforeRouter reg req (urlPathOf cfg req) (runCb c1 cfg.staticCb)) := by
  unfold serve
  rw [if_neg (not_not_intro hm)]
  simp only [h1, h2, Bool.false_eq_true, if_false]
  rw [if_neg h3]

theorem serveFromBeforeRouter_stop (reg : Register) (req : Request) (up : String)
    (c c' : Ctx) (e' : List Ev)
    (h : doFilter reg BeforeRouter up c = (true, c', e')) :
    serveFromBeforeRouter reg req up c = withEvs e' (adminBlock c') := by
  unfold serveFromBeforeRouter
  simp only [h]

theorem serveFromBeforeRouter_unfold (reg : Register) (req : Request) (up : String)
    (c c3 : Ctx) (e3 : List Ev)
    (h4 : doFilter reg BeforeRouter up c = (false, c3, e3))
    (h5 : ¬(c3.runController.isSome = true ∧ c3.runMethod ≠ "")) :
    serveFromBeforeRouter reg req up c =
      withEvs (e3 ++ (lookupStage reg.routers req.method req.methodOverride up c3).2.2)
        (serveAfterLookup reg req up
          (lookupStage reg.routers req.method req.methodOverride up c3).1 none ""
          (lookupStage reg.routers req.method req.methodOverride up c3).1.isSome
          (lookupStage reg.routers req.method req.methodOverride up c3).2.1) := by
  unfold serveFromBeforeRouter
  simp only [h4]
  rw [if_neg h5]

theorem serveAfterLookup_404 (reg : Register) (req : Request) (up : String)
    (ri : Option ControllerInfo) (rc : Option String) (rm : String) (c : Ctx) :
    serveAfterLookup reg req up ri rc rm false c =
      withEvs [Ev.exceptionRaised "404"] (adminBlock c) := by
  unfold serveAfterLookup
  rw [if_pos (by simp)]

theorem serveAfterLookup_405 (reg : Register) (req : Request) (up : String)
    (ri : ControllerInfo) (rc : Option String) (rm : String) (c c4 : Ctx) (e4 : List Ev)
    (hBE : doFilter reg BeforeExec up c = (false, c4, e4))
    (hrt : ri.routerType = RouterType.restful)
    (hnm : alGet ri.methods req.method = none) :
    serveAfterLookup reg req up (some ri) rc rm true c =
      withEvs (e4 ++ [Ev.exceptionRaised "405"]) (adminBlock c4) := by
  unfold serveAfterLookup
  rw [if_neg (by simp)]
  simp only [hBE, hrt, hnm]
  rfl

theorem serveTail_stop (reg : Register) (up : String) (c c1 : Ctx) (e1 : List Ev)
    (h : doFilter reg AfterExec up c = (true, c1, e1)) :
    serveTail reg up c = withEvs e1 (adminBlock c1) := by
  unfold serveTail
  simp only [h]

theorem serveTail_cont (reg : Register) (up : String) (c c1 : Ctx) (e1 : List Ev)
    (h : doFilter reg AfterExec up c = (false, c1, e1)) :
    serveTail reg up c =
      withEvs (e1 ++ (doFilter reg FinishRouter up c1).2.2)
        (adminBlock (doFilter reg FinishRouter up c1).2.1) := by
  unfold serveTail
  simp only [h]

theorem doFilter_congr (reg reg' : Register) (pos : Nat) (up : String) (c : Ctx)
    (he : reg'.enableFilter = reg.enableFilter)
    (hf : reg'.filters pos = reg.filters pos) :
    doFilter reg' pos up c = doFilter reg pos up c := by
  unfold doFilter
  rw [he, hf]

/-! ## Splat-explosion helpers (for C1) -/

theorem itoa_fold_preserve (el : List (Nat × String)) (m : AList) (k : String)
    (h : ∀ kv ∈ el, itoa kv.1 ≠ k) :
    alGet (el.foldl (fun m kv => alSet m (itoa kv.1) kv.2) m) k = alGet m k := by
  induction el generalizing m with
  | nil => rfl
  | cons hd tl ih =>
    rw [List.foldl_cons, ih _ (fun kv hm => h kv (List.mem_cons_of_mem _ hm))]
    exact alGet_alSet_ne m (itoa hd.1) k hd.2
      (fun hh => h hd (List.mem_cons_self _ _) hh.symm)

theorem le_fst_of_mem_enumFrom (l : List String) (n : Nat) (kv : Nat × String)
    (h : kv ∈ l.enumFrom n) : n ≤ kv.1 := by
  induction l generalizing n with
  | nil => simp [List.enumFrom] at h
  | cons x xs ih =>
    rw [List.enumFrom] at h
    rcases List.mem_cons.mp h with h1 | h2
    · rw [h1]
    · exact Nat.le_of_succ_le (ih (n + 1) h2)

theorem splat_fold_get (l : List String) (off : Nat) (m : AList) (i : Nat)
    (h : i < l.length) :
    alGet ((l.enumFrom off).foldl (fun m kv => alSet m (itoa kv.1) kv.2) m)
        (itoa (off + i)) = some (l.get ⟨i, h⟩) := by
  induction l generalizing off m i with
  | nil => exact absurd h (by simp)
  | cons x xs ih =>
    rw [List.enumFrom, List.foldl_cons]
    cases i with
    | zero =>
      rw [itoa_fold_preserve]
      · rw [Nat.add_zero]
        exact alGet_alSet_self m (itoa off) x
      · intro kv hm heq
        have hle := le_fst_of_mem_enumFrom xs (off + 1) kv hm
        have := itoa_inj _ _ heq
        omega
    | succ j =>
      have hj : j < xs.length := by simpa using h
      rw [show off + (j + 1) = (off + 1) + j by omega]
      exact ih (off + 1) (alSet m (itoa off) x) j hj

theorem explodeSplat_get (p : AList) (s : String) (hs : alGet p ":splat" = some s)
    (i : Nat) (h : i < (goSplit s '/').length) :
    alGet (explodeSplat p) (itoa i) = some ((goSplit s '/').get ⟨i, h⟩) := by
  simp only [explodeSplat, hs]
  have he : (goSplit s '/').enum = (goSplit s '/').enumFrom 0 := List.enum_eq_enumFrom
  rw [he]
  have hg := splat_fold_get (goSplit s '/') 0 p i h
  rw [Nat.zero_add] at hg
  exact hg

/-! ## Claim C1 -/

/-- Claim C1: for a request not already resolved by a filter, the
Dispatcher applies the verb override (a POST whose `_method` query
parameter is PUT or DELETE is looked up in that verb's trie, the
override affecting only which trie is consulted), consults that trie
with the case-folded request path, on a match stores the returned
parameter map in the Request Context, and explodes any `:splat` entry
into positional keys bound to the `/`-separated components. -/
theorem dispatcher_lookup_spec :
    (overrideMethod "POST" "PUT" = "PUT") ∧
    (overrideMethod "POST" "DELETE" = "DELETE") ∧
    (∀ m q, m ≠ "POST" → overrideMethod m q = m) ∧
    (∀ m q, q ≠ "PUT" → q ≠ "DELETE" → overrideMethod m q = m) ∧
    (∀ (r1 r2 : String → Option MatchFn) m q up c,
      r1 (overrideMethod m q) = r2 (overrideMethod m q) →
      lookupStage r1 m q up c = lookupStage r2 m q up c) ∧
    (∀ (routers : String → Option MatchFn) m q up c t r p,
      routers (overrideMethod m q) = some t →
      t up = (some r, some p) →
      lookupStage routers m q up c =
        (some r, { c with params := some (explodeSplat p) },
         [Ev.trieLookup (overrideMethod m q) up])) ∧
    (∀ p s, alGet p ":splat" = some s →
      ∀ i (h : i < (goSplit s '/').length),
        alGet (explodeSplat p) (itoa i) = some ((goSplit s '/').get ⟨i, h⟩)) ∧
    (∀ cfg reg req c1 e1 c3 e3,
      req.method ∈ HTTPMETHOD →
      doFilter reg BeforeStatic (urlPathOf cfg req) initCtx = (false, c1, e1) →
      (runCb c1 cfg.staticCb).w.started = false →
      ¬(cfg.sessionOn = true ∧ cfg.sessionStartFails = true) →
      doFilter reg BeforeRouter (urlPathOf cfg req) (runCb c1 cfg.staticCb) =
        (false, c3, e3) →
      ¬(c3.runController.isSome = true ∧ c3.runMethod ≠ "") →
      ∀ t, reg.routers (overrideMethod req.method req.methodOverride) = some t →
        Ev.trieLookup (overrideMethod req.method req.methodOverride) (urlPathOf cfg req)
          ∈ (serve cfg reg req).2) := by
  refine ⟨rfl, rfl, ?_, ?_, lookupStage_depends_only_on_override, lookupStage_match_params,
    fun p s hs i h => explodeSplat_get p s hs i h, ?_⟩
  · intro m q hm
    unfold overrideMethod
    rw [if_neg (fun hc : m = "POST" ∧ q = "PUT" => hm hc.1)]
    rw [if_neg (fun hc : m = "POST" ∧ q = "DELETE" => hm hc.1)]
  · intro m q hP hD
    unfold overrideMethod
    rw [if_neg (fun hc : m = "POST" ∧ q = "PUT" => hP hc.2)]
    rw [if_neg (fun hc : m = "POST" ∧ q = "DELETE" => hD hc.2)]
  · intro cfg reg req c1 e1 c3 e3 hm h1 h2 h3 h4 h5 t ht
    rw [serve_unfold cfg reg req c1 e1 hm h1 h2 h3,
      serveFromBeforeRouter_unfold reg req (urlPathOf cfg req) (runCb c1 cfg.staticCb) c3 e3
        h4 h5]
    have hltr := lookupStage_trace_of_some reg.routers req.method req.methodOverride
      (urlPathOf cfg req) c3 t ht
    simp [withEvs, hltr]

/-- Witness for `dispatcher_lookup_spec` at concrete inputs: a POST to
`/files/a/b/c` with `_method=PUT` is looked up in the PUT tree, and the
splat explodes positionally. -/
theorem dispatcher_lookup_spec_witness :
    Ev.trieLookup "PUT" "/files/a/b/c" ∈ (serve cfgPlain regSplat reqOverride).2 ∧
    alGet (explodeSplat [(":splat", "a/b/c")]) (itoa 1) = some "b" := by
  constructor
  · have h := dispatcher_lookup_spec.2.2.2.2.2.2.2 cfgPlain regSplat reqOverride
      initCtx [] initCtx [] (by decide) rfl rfl (by simp [cfgPlain]) rfl
      (by simp [initCtx]) matchSplat (by rfl)
    simpa [cfgPlain, regSplat, reqOverride, urlPathOf, overrideMethod] using h
  · have h := dispatcher_lookup_spec.2.2.2.2.2.2.1 [(":splat", "a/b/c")] "a/b/c" rfl 1
      (by decide)
    rw [h]
    rfl

/-! ## Claim C2 -/

/-- Claim C2: a request that no filter resolved and whose path matches
no route in the (override-adjusted) verb's trie raises the `"404"`
exception and finalizes; a request matching a Function-Handler route
whose accepted-verb set lacks the request verb raises `"405"` and
finalizes without invoking the callback; in neither case is any handler
run. -/
theorem dispatcher_404_405_spec (cfg : Config) (reg : Register) (req : Request)
    (c1 c3 : Ctx) (e1 e3 : List Ev)
    (hm : req.method ∈ HTTPMETHOD)
    (h1 : doFilter reg BeforeStatic (urlPathOf cfg req) initCtx = (false, c1, e1))
    (h2 : (runCb c1 cfg.staticCb).w.started = false)
    (h3 : ¬(cfg.sessionOn = true ∧ cfg.sessionStartFails = true))
    (h4 : doFilter reg BeforeRouter (urlPathOf cfg req) (runCb c1 cfg.staticCb) =
      (false, c3, e3))
    (h5 : ¬(c3.runController.isSome = true ∧ c3.runMethod ≠ "")) :
    ((lookupStage reg.routers req.method req.methodOverride (urlPathOf cfg req) c3).1 =
        none →
      Ev.exceptionRaised "404" ∈ (serve cfg reg req).2 ∧
      Ev.adminReached ∈ (serve cfg reg req).2 ∧
      (∀ pat, Ev.invokeFunction pat ∉ (serve cfg reg req).2 ∧
        Ev.invokeHandler pat ∉ (serve cfg reg req).2) ∧
      (∀ a b, Ev.invokeController a b ∉ (serve cfg reg req).2)) ∧
    (∀ t ri p c4 e4,
      reg.routers (overrideMethod req.method req.methodOverride) = some t →
      t (urlPathOf cfg req) = (some ri, p) →
      ri.routerType = RouterType.restful →
      alGet ri.methods req.method = none →
      doFilter reg BeforeExec (urlPathOf cfg req)
        (lookupStage reg.routers req.method req.methodOverride (urlPathOf cfg req) c3).2.1 =
        (false, c4, e4) →
      Ev.exceptionRaised "405" ∈ (serve cfg reg req).2 ∧
      Ev.adminReached ∈ (serve cfg reg req).2 ∧
      (∀ pat, Ev.invokeFunction pat ∉ (serve cfg reg req).2)) := by
  have hs := serve_unfold cfg reg req c1 e1 hm h1 h2 h3
  have hsf := serveFromBeforeRouter_unfold reg req (urlPathOf cfg req)
    (runCb c1 cfg.staticCb) c3 e3 h4 h5
  have hE1 : ∀ ev ∈ e1, (∃ pp, ev = Ev.filterRun pp) ∨ ev = Ev.staticServe ∨
      (∃ v pth, ev = Ev.trieLookup v pth) ∨ (∃ cd, ev = Ev.exceptionRaised cd) ∨
      ev = Ev.adminReached ∨ (∃ cd, ev = Ev.adminStatusWrite cd) :=
    fun ev h => Or.inl (doFilter_events reg BeforeStatic (urlPathOf cfg req) initCtx ev
      (by rw [h1]; exact h))
  have hE3 : ∀ ev ∈ e3, (∃ pp, ev = Ev.filterRun pp) ∨ ev = Ev.staticServe ∨
      (∃ v pth, ev = Ev.trieLookup v pth) ∨ (∃ cd, ev = Ev.exceptionRaised cd) ∨
      ev = Ev.adminReached ∨ (∃ cd, ev = Ev.adminStatusWrite cd) :=
    fun ev h => Or.inl (doFilter_events reg BeforeRouter (urlPathOf cfg req)
      (runCb c1 cfg.staticCb) ev (by rw [h4]; exact h))
  have hStatic : ∀ ev ∈ [Ev.staticServe], (∃ pp, ev = Ev.filterRun pp) ∨ ev = Ev.staticServe ∨
      (∃ v pth, ev = Ev.trieLookup v pth) ∨ (∃ cd, ev = Ev.exceptionRaised cd) ∨
      ev = Ev.adminReached ∨ (∃ cd, ev = Ev.adminStatusWrite cd) :=
    fun ev h => Or.inr (Or.inl (List.mem_singleton.mp h))
  have hLtr : ∀ ev ∈ (lookupStage reg.routers req.method req.methodOverride
      (urlPathOf cfg req) c3).2.2, (∃ pp, ev = Ev.filterRun pp) ∨ ev = Ev.staticServe ∨
      (∃ v pth, ev = Ev.trieLookup v pth) ∨ (∃ cd, ev = Ev.exceptionRaised cd) ∨
      ev = Ev.adminReached ∨ (∃ cd, ev = Ev.adminStatusWrite cd) := by
    intro ev h
    rcases lookupStage_events reg.routers req.method req.methodOverride
      (urlPathOf cfg req) c3 with hl | hl <;> rw [hl] at h
    · exact absurd h (List.not_mem_nil ev)
    · exact Or.inr (Or.inr (Or.inl ⟨_, _, List.mem_singleton.mp h⟩))
  have hAdmin : ∀ X : Ctx, ∀ ev ∈ (adminBlock X).2, (∃ pp, ev = Ev.filterRun pp) ∨ ev = Ev.staticServe ∨
      (∃ v pth, ev = Ev.trieLookup v pth) ∨ (∃ cd, ev = Ev.exceptionRaised cd) ∨
      ev = Ev.adminReached ∨ (∃ cd, ev = Ev.adminStatusWrite cd) := by
    intro X ev h
    rcases adminBlock_events_classify X ev h with h' | ⟨cd, h'⟩
    · exact Or.inr (Or.inr (Or.inr (Or.inr (Or.inl h'))))
    · exact Or.inr (Or.inr (Or.inr (Or.inr (Or.inr ⟨cd, h'⟩))))
  constructor
  · intro hnone
    rw [hs, hsf, hnone]
    simp only [Option.isSome_none]
    rw [serveAfterLookup_404]
    have h404 : ∀ ev ∈ [Ev.exceptionRaised "404"], (∃ pp, ev = Ev.filterRun pp) ∨ ev = Ev.staticServe ∨
      (∃ v pth, ev = Ev.trieLookup v pth) ∨ (∃ cd, ev = Ev.exceptionRaised cd) ∨
      ev = Ev.adminReached ∨ (∃ cd, ev = Ev.adminStatusWrite cd) :=
      fun ev h => Or.inr (Or.inr (Or.inr (Or.inl ⟨_, List.mem_singleton.mp h⟩)))
    have hcls := forall_mem_append_ev (forall_mem_append_ev hE1 hStatic)
      (forall_mem_append_ev (forall_mem_append_ev hE3 hLtr)
        (forall_mem_append_ev h404
          (hAdmin (lookupStage reg.routers req.method req.methodOverride
            (urlPathOf cfg req) c3).2.1)))
    refine ⟨?_, ?_, ?_, ?_⟩
    · simp [withEvs]
    · rcases adminBlock_events (lookupStage reg.routers req.method req.methodOverride
        (urlPathOf cfg req) c3).2.1 with ha | ha <;> simp [withEvs, ha]
    · intro pat
      refine ⟨fun hmem => ?_, fun hmem => ?_⟩ <;>
        rcases hcls _ hmem with ⟨pp, h'⟩ | h' | ⟨v, pth, h'⟩ | ⟨cd, h'⟩ | h' | ⟨cd, h'⟩ <;>
        simp at h'
    · intro a b hmem
      rcases hcls _ hmem with ⟨pp, h'⟩ | h' | ⟨v, pth, h'⟩ | ⟨cd, h'⟩ | h' | ⟨cd, h'⟩ <;>
        simp at h'
  · intro t ri p c4 e4 ht htu hrt hnm hBE
    have hl := lookupStage_found reg.routers req.method req.methodOverride
      (urlPathOf cfg req) c3 t ri p ht htu
    rw [hs, hsf, hl.1]
    simp only [Option.isSome_some]
    rw [serveAfterLookup_405 reg req (urlPathOf cfg req) ri none "" _ c4 e4 hBE hrt hnm]
    have hE4 : ∀ ev ∈ e4, (∃ pp, ev = Ev.filterRun pp) ∨ ev = Ev.staticServe ∨
      (∃ v pth, ev = Ev.trieLookup v pth) ∨ (∃ cd, ev = Ev.exceptionRaised cd) ∨
      ev = Ev.adminReached ∨ (∃ cd, ev = Ev.adminStatusWrite cd) :=
      fun ev h => Or.inl (doFilter_events reg BeforeExec (urlPathOf cfg req)
        (lookupStage reg.routers req.method req.methodOverride
          (urlPathOf cfg req) c3).2.1 ev (by rw [hBE]; exact h))
    have h405 : ∀ ev ∈ [Ev.exceptionRaised "405"], (∃ pp, ev = Ev.filterRun pp) ∨ ev = Ev.staticServe ∨
      (∃ v pth, ev = Ev.trieLookup v pth) ∨ (∃ cd, ev = Ev.exceptionRaised cd) ∨
      ev = Ev.adminReached ∨ (∃ cd, ev = Ev.adminStatusWrite cd) :=
      fun ev h => Or.inr (Or.inr (Or.inr (Or.inl ⟨_, List.mem_singleton.mp h⟩)))
    have hcls := forall_mem_append_ev (forall_mem_append_ev hE1 hStatic)
      (forall_mem_append_ev (forall_mem_append_ev hE3 hLtr)
        (forall_mem_append_ev (forall_mem_append_ev hE4 h405) (hAdmin c4)))
    refine ⟨?_, ?_, ?_⟩
    · simp [withEvs]
    · rcases adminBlock_events c4 with ha | ha <;> simp [withEvs, ha]
    · intro pat hmem
      rcases hcls _ hmem with ⟨pp, h'⟩ | h' | ⟨v, pth, h'⟩ | ⟨cd, h'⟩ | h' | ⟨cd, h'⟩ <;>
        simp at h'

/-- Witness for `dispatcher_404_405_spec`: an unmatched GET yields the
404 exception without running a handler; a GET to a POST-only
Function-Handler route yields 405 without invoking the callback. -/
theorem dispatcher_404_405_spec_witness :
    (Ev.exceptionRaised "404" ∈ (serve cfgPlain regEmpty reqGetX).2 ∧
      ∀ pat, Ev.invokeHandler pat ∉ (serve cfgPlain regEmpty reqGetX).2) ∧
    (Ev.exceptionRaised "405" ∈ (serve cfgPlain regFn reqGetApi).2 ∧
      ∀ pat, Ev.invokeFunction pat ∉ (serve cfgPlain regFn reqGetApi).2) := by
  constructor
  · have h := (dispatcher_404_405_spec cfgPlain regEmpty reqGetX initCtx initCtx [] []
      (by decide) rfl rfl (by simp [cfgPlain]) rfl (by simp [initCtx])).1 (by rfl)
    exact ⟨h.1, fun pat => (h.2.2.1 pat).2⟩
  · have h := (dispatcher_404_405_spec cfgPlain regFn reqGetApi initCtx initCtx [] []
      (by decide) rfl rfl (by simp [cfgPlain]) rfl (by simp [initCtx])).2
      (fun p => if p = "/api" then (some ciFn, none) else (none, none)) ciFn none
      _ [] (by rfl) (by rfl) rfl (by rfl) rfl
    exact ⟨h.1, h.2.2⟩

/-! ## Claim C4 -/

/-- Claim C4 counterexample: with an after-exec filter that halts on
started output and writes, plus a registered finish filter, the
after-exec "stop" makes the Dispatcher jump to finalization and the
finish filters never run — contradicting "the finish filters are run
unconditionally after the after-exec point". -/
theorem afterExec_stop_counterexample :
    Ev.filterRun "ae" ∈ (serve cfgPlain regC4 reqGetX).2 ∧
    Ev.filterRun "fin" ∉ (serve cfgPlain regC4 reqGetX).2 ∧
    Ev.adminReached ∈ (serve cfgPlain regC4 reqGetX).2 := by
  decide

/-- Claim C4 (amended): a "stop" from the after-exec point skips the
finish filters and jumps directly to finalization — the finish-filter
list is then irrelevant to the result; only when the after-exec point
does not stop are the finish filters run (their own stop result has no
further effect, finalization follows either way). -/
theorem afterExec_stop_spec :
    (∀ (reg reg' : Register) up c c1 e1,
      doFilter reg AfterExec up c = (true, c1, e1) →
      reg'.enableFilter = reg.enableFilter →
      reg'.filters AfterExec = reg.filters AfterExec →
      serveTail reg up c = serveTail reg' up c) ∧
    (∀ reg up c c1 e1,
      doFilter reg AfterExec up c = (true, c1, e1) →
      serveTail reg up c = withEvs e1 (adminBlock c1)) ∧
    (∀ reg up c c1 e1,
      doFilter reg AfterExec up c = (false, c1, e1) →
      serveTail reg up c =
        withEvs (e1 ++ (doFilter reg FinishRouter up c1).2.2)
          (adminBlock (doFilter reg FinishRouter up c1).2.1)) := by
  refine ⟨?_, serveTail_stop, serveTail_cont⟩
  intro reg reg' up c c1 e1 h he hf
  have h' : doFilter reg' AfterExec up c = (true, c1, e1) := by
    rw [doFilter_congr reg reg' AfterExec up c he hf]
    exact h
  rw [serveTail_stop reg up c c1 e1 h, serveTail_stop reg' up c c1 e1 h']

/-- Witness for `afterExec_stop_spec` at concrete inputs. -/
theorem afterExec_stop_spec_witness :
    serveTail regC4 "/x"
        { w := { writer := [], started := true, status := 0 }, params := none,
          outputStatus := 0, runController := none, runMethod := "" } =
      withEvs []
        (adminBlock
          { w := { writer := [], started := true, status := 0 }, params := none,
            outputStatus := 0, runController := none, runMethod := "" }) ∧
    serveTail regEmpty "/x" initCtx =
      withEvs ([] ++ (doFilter regEmpty FinishRouter "/x" initCtx).2.2)
        (adminBlock (doFilter regEmpty FinishRouter "/x" initCtx).2.1) := by
  constructor
  · exact afterExec_stop_spec.2.1 regC4 "/x" _ _ [] (by decide)
  · exact afterExec_stop_spec.2.2 regEmpty "/x" initCtx initCtx [] (by rfl)

/-! ## Claim C5 -/

/-- Claim C5: a before-router filter with the halt flag whose callback
writes to the response stops the before-router point, and a
before-router stop makes the Dispatcher skip the trie lookup and every
handler invocation, jumping directly to finalization. -/
theorem beforeRouter_halt_spec :
    (∀ up pre (f : FilterRouter) post c c' e ps,
      doFilterList up pre c = (false, c', e) →
      f.returnOnOutput = true →
      f.valid up = some ps →
      (runCb { c' with params := mergeParams c'.params ps } f.cb).w.started = true →
      (doFilterList up (pre ++ f :: post) c).1 = true) ∧
    (∀ reg req up c c' e',
      doFilter reg BeforeRouter up c = (true, c', e') →
      (∀ v pth, Ev.trieLookup v pth ∉ (serveFromBeforeRouter reg req up c).2) ∧
      (∀ pat, Ev.invokeFunction pat ∉ (serveFromBeforeRouter reg req up c).2 ∧
        Ev.invokeHandler pat ∉ (serveFromBeforeRouter reg req up c).2) ∧
      (∀ a b, Ev.invokeController a b ∉ (serveFromBeforeRouter reg req up c).2) ∧
      Ev.adminReached ∈ (serveFromBeforeRouter reg req up c).2) ∧
    (∀ cfg reg req c1 e1 c' e',
      req.method ∈ HTTPMETHOD →
      doFilter reg BeforeStatic (urlPathOf cfg req) initCtx = (false, c1, e1) →
      (runCb c1 cfg.staticCb).w.started = false →
      ¬(cfg.sessionOn = true ∧ cfg.sessionStartFails = true) →
      doFilter reg BeforeRouter (urlPathOf cfg req) (runCb c1 cfg.staticCb) =
        (true, c', e') →
      (∀ v pth, Ev.trieLookup v pth ∉ (serve cfg reg req).2) ∧
      (∀ pat, Ev.invokeHandler pat ∉ (serve cfg reg req).2) ∧
      (∀ a b, Ev.invokeController a b ∉ (serve cfg reg req).2) ∧
      Ev.adminReached ∈ (serve cfg reg req).2) := by
  refine ⟨?_, ?_, ?_⟩
  · intro up pre f post c c' e ps hpre hf hv hs
    rw [doFilterList_append_cont up pre (f :: post) c c' e hpre]
    show (doFilterList up (f :: post) c').1 = true
    rw [doFilterList]
    by_cases hcs : f.returnOnOutput = true ∧ c'.w.started = true
    · rw [if_pos hcs]
    · rw [if_neg hcs]
      simp only [hv]
      rw [if_pos ⟨hf, hs⟩]
  · intro reg req up c c' e' hstop
    rw [serveFromBeforeRouter_stop reg req up c c' e' hstop]
    have hE : ∀ ev ∈ e', (∃ pp, ev = Ev.filterRun pp) ∨ ev = Ev.staticServe ∨
      ev = Ev.adminReached ∨ (∃ cd, ev = Ev.adminStatusWrite cd) :=
      fun ev h => Or.inl (doFilter_events reg BeforeRouter up c ev
        (by rw [hstop]; exact h))
    have hAd : ∀ ev ∈ (adminBlock c').2, (∃ pp, ev = Ev.filterRun pp) ∨ ev = Ev.staticServe ∨
      ev = Ev.adminReached ∨ (∃ cd, ev = Ev.adminStatusWrite cd) := by
      intro ev h
      rcases adminBlock_events_classify c' ev h with h' | ⟨cd, h'⟩
      · exact Or.inr (Or.inr (Or.inl h'))
      · exact Or.inr (Or.inr (Or.inr ⟨cd, h'⟩))
    have hcls := forall_mem_append_ev hE hAd
    refine ⟨?_, ?_, ?_, ?_⟩
    · intro v pth hmem
      rcases hcls _ hmem with ⟨pp, h'⟩ | h' | h' | ⟨cd, h'⟩ <;> simp at h'
    · intro pat
      refine ⟨fun hmem => ?_, fun hmem => ?_⟩ <;>
        rcases hcls _ hmem with ⟨pp, h'⟩ | h' | h' | ⟨cd, h'⟩ <;> simp at h'
    · intro a b hmem
      rcases hcls _ hmem with ⟨pp, h'⟩ | h' | h' | ⟨cd, h'⟩ <;> simp at h'
    · rcases adminBlock_events c' with ha | ha <;> simp [withEvs, ha]
  · intro cfg reg req c1 e1 c' e' hm h1 h2 h3 hstop
    have hs := serve_unfold cfg reg req c1 e1 hm h1 h2 h3
    have hsf := serveFromBeforeRouter_stop reg req (urlPathOf cfg req)
      (runCb c1 cfg.staticCb) c' e' hstop
    rw [hs, hsf]
    have hE1 : ∀ ev ∈ e1, (∃ pp, ev = Ev.filterRun pp) ∨ ev = Ev.staticServe ∨
      ev = Ev.adminReached ∨ (∃ cd, ev = Ev.adminStatusWrite cd) :=
      fun ev h => Or.inl (doFilter_events reg BeforeStatic (urlPathOf cfg req) initCtx ev
        (by rw [h1]; exact h))
    have hStatic : ∀ ev ∈ [Ev.staticServe], (∃ pp, ev = Ev.filterRun pp) ∨ ev = Ev.staticServe ∨
      ev = Ev.adminReached ∨ (∃ cd, ev = Ev.adminStatusWrite cd) :=
      fun ev h => Or.inr (Or.inl (List.mem_singleton.mp h))
    have hE : ∀ ev ∈ e', (∃ pp, ev = Ev.filterRun pp) ∨ ev = Ev.staticServe ∨
      ev = Ev.adminReached ∨ (∃ cd, ev = Ev.adminStatusWrite cd) :=
      fun ev h => Or.inl (doFilter_events reg BeforeRouter (urlPathOf cfg req)
        (runCb c1 cfg.staticCb) ev (by rw [hstop]; exact h))
    have hAd : ∀ ev ∈ (adminBlock c').2, (∃ pp, ev = Ev.filterRun pp) ∨ ev = Ev.staticServe ∨
      ev = Ev.adminReached ∨ (∃ cd, ev = Ev.adminStatusWrite cd) := by
      intro ev h
      rcases adminBlock_events_classify c' ev h with h' | ⟨cd, h'⟩
      · exact Or.inr (Or.inr (Or.inl h'))
      · exact Or.inr (Or.inr (Or.inr ⟨cd, h'⟩))
    have hcls := forall_mem_append_ev (forall_mem_append_ev hE1 hStatic)
      (forall_mem_append_ev hE hAd)
    refine ⟨?_, ?_, ?_, ?_⟩
    · intro v pth hmem
      rcases hcls _ hmem with ⟨pp, h'⟩ | h' | h' | ⟨cd, h'⟩ <;> simp at h'
    · intro pat hmem
      rcases hcls _ hmem with ⟨pp, h'⟩ | h' | h' | ⟨cd, h'⟩ <;> simp at h'
    · intro a b hmem
      rcases hcls _ hmem with ⟨pp, h'⟩ | h' | h' | ⟨cd, h'⟩ <;> simp at h'
    · rcases adminBlock_events c' with ha | ha <;> simp [withEvs, ha]

/-- Witness for `beforeRouter_halt_spec` at concrete inputs: a writing
halt-flagged before-router filter prevents the lookup of the matching
GET route and any handler invocation. -/
theorem beforeRouter_halt_spec_witness :
    (∀ v pth, Ev.trieLookup v pth ∉ (serve cfgPlain regC5 reqGetX).2) ∧
    (∀ pat, Ev.invokeHandler pat ∉ (serve cfgPlain regC5 reqGetX).2) ∧
    Ev.adminReached ∈ (serve cfgPlain regC5 reqGetX).2 := by
  have h := beforeRouter_halt_spec.2.2 cfgPlain regC5 reqGetX initCtx []
    { w := { writer := [UEvent.body], started := true, status := 0 }, params := none,
      outputStatus := 0, runController := none, runMethod := "" } [Ev.filterRun "br"]
    (by decide) rfl rfl (by simp [cfgPlain]) (by decide)
  exact ⟨h.1, h.2.1, h.2.2.2⟩

/-! ## Reverse-resolver helpers (for C8) -/

theorem trimRightAmp_append_amp (x : String) (hx : x.data.getLast? ≠ some '&') :
    trimRightAmp (x ++ "&") = x := by
  apply String.ext
  show ((x ++ "&").data.reverse.dropWhile (fun c => c = '&')).reverse = x.data
  rw [String.data_append, show ("&".data) = ['&'] from rfl, List.reverse_append]
  simp only [List.reverse_cons, List.reverse_nil, List.nil_append, List.singleton_append]
  rw [List.dropWhile_cons_of_pos (by simp)]
  rcases hrev : x.data.reverse with _ | ⟨c, cs⟩
  · have hxe : x.data = [] := by simpa using congrArg List.reverse hrev
    simp [hxe]
  · have hc : ¬(c = '&') := by
      have hl : x.data.getLast? = some c := by
        rw [← List.head?_reverse, hrev]
        rfl
      intro hcc
      rw [hcc] at hl
      exact hx hl
    rw [List.dropWhile_cons_of_neg (by simpa using hc)]
    rw [← hrev, List.reverse_reverse]

theorem part_data_ne_nil (k v : String) : (k ++ "=" ++ v).data ≠ [] := by
  rw [String.data_append, String.data_append]
  intro h
  rcases List.append_eq_nil.mp h with ⟨h1, _⟩
  rcases List.append_eq_nil.mp h1 with ⟨_, h2⟩
  exact absurd h2 (by decide)

theorem append_getLast_of_ne_nil (a b : String) (hb : b.data ≠ []) :
    (a ++ b).data.getLast? = b.data.getLast? := by
  rw [String.data_append, List.getLast?_append]
  cases hbl : b.data.getLast? with
  | some c => rfl
  | none => exact absurd (List.getLast?_eq_none_iff.mp hbl) hb

theorem part_getLast (k v : String) (hv : v.data.getLast? ≠ some '&') :
    (k ++ "=" ++ v).data.getLast? ≠ some '&' := by
  rw [String.data_append, List.getLast?_append]
  cases hvl : v.data.getLast? with
  | some c =>
    rw [hvl] at hv
    simpa [Option.or] using hv
  | none =>
    simp only [Option.or]
    rw [String.data_append, List.getLast?_append]
    rw [show ("=".data) = ['='] from rfl]
    simp [Option.or]

theorem specQueryParts_data_ne_nil (entries : List (String × String))
    (hne : entries ≠ []) : (specQueryParts entries).data ≠ [] := by
  cases entries with
  | nil => exact absurd rfl hne
  | cons kv rest =>
    cases rest with
    | nil => exact part_data_ne_nil kv.1 kv.2
    | cons r rs =>
      show ((kv.1 ++ "=" ++ kv.2 ++ "&") ++ specQueryParts (r :: rs)).data ≠ []
      rw [String.data_append]
      intro h
      rcases List.append_eq_nil.mp h with ⟨h1, _⟩
      exact part_data_ne_nil kv.1 (kv.2 ++ "&") (by
        rw [String.append_assoc] at h1
        exact h1)

theorem specQueryParts_getLast (entries : List (String × String)) (hne : entries ≠ [])
    (h : ∀ kv ∈ entries, kv.2.data.getLast? ≠ some '&') :
    (specQueryParts entries).data.getLast? ≠ some '&' := by
  induction entries with
  | nil => exact absurd rfl hne
  | cons kv rest ih =>
    cases rest with
    | nil => exact part_getLast kv.1 kv.2 (h kv (List.mem_cons_self _ _))
    | cons r rs =>
      show ((kv.1 ++ "=" ++ kv.2 ++ "&") ++ specQueryParts (r :: rs)).data.getLast? ≠
        some '&'
      rw [append_getLast_of_ne_nil _ _ (specQueryParts_data_ne_nil _ (by simp))]
      exact ih (by simp) (fun kv2 hm => h kv2 (List.mem_cons_of_mem _ hm))

theorem tourl_fold_eq (entries : List (String × String)) (acc : String)
    (hne : entries ≠ [])
    (h : ∀ kv ∈ entries, kv.2.data.getLast? ≠ some '&') :
    trimRightAmp (entries.foldl (fun u kv => u ++ kv.1 ++ "=" ++ kv.2 ++ "&") acc) =
      acc ++ specQueryParts entries := by
  induction entries generalizing acc with
  | nil => exact absurd rfl hne
  | cons kv rest ih =>
    rw [List.foldl_cons]
    cases rest with
    | nil =>
      show trimRightAmp (acc ++ kv.1 ++ "=" ++ kv.2 ++ "&") =
        acc ++ (kv.1 ++ "=" ++ kv.2)
      have hx : (acc ++ kv.1 ++ "=" ++ kv.2).data.getLast? ≠ some '&' := by
        rw [show acc ++ kv.1 ++ "=" ++ kv.2 = acc ++ (kv.1 ++ "=" ++ kv.2) by
          apply String.ext
          simp [String.data_append, List.append_assoc]]
        rw [append_getLast_of_ne_nil _ _ (part_data_ne_nil kv.1 kv.2)]
        exact part_getLast kv.1 kv.2 (h kv (List.mem_cons_self _ _))
      rw [trimRightAmp_append_amp _ hx]
      apply String.ext
      simp [String.data_append, List.append_assoc]
    | cons r rs =>
      rw [ih (acc ++ kv.1 ++ "=" ++ kv.2 ++ "&") (by simp)
        (fun kv2 hm => h kv2 (List.mem_cons_of_mem _ hm))]
      show (acc ++ kv.1 ++ "=" ++ kv.2 ++ "&") ++ specQueryParts (r :: rs) =
        acc ++ (kv.1 ++ "=" ++ kv.2 ++ "&" ++ specQueryParts (r :: rs))
      apply String.ext
      simp [String.data_append, List.append_assoc]

theorem tourl_eq_specQueryString (entries : List (String × String))
    (h : ∀ kv ∈ entries, kv.2.data.getLast? ≠ some '&') :
    tourl entries = specQueryString entries := by
  by_cases hne : entries = []
  · rw [hne]
    rfl
  · unfold tourl specQueryString
    rw [if_neg hne, if_neg hne]
    exact tourl_fold_eq entries "?" hne h

theorem allLeaves_node (fix : List (String × Tree)) (wild : Option Tree)
    (leaves : List Leaf) :
    allLeaves (Tree.node fix wild leaves) =
      allLeavesFix fix ++
        (match wild with
         | some wt => allLeaves wt
         | none => []) ++ leaves := by
  rw [allLeaves.eq_def]

theorem allLeavesFix_nil : allLeavesFix [] = [] := by
  rw [allLeavesFix.eq_def]

theorem allLeavesFix_cons (k : String) (sub : Tree) (rest : List (String × Tree)) :
    allLeavesFix ((k, sub) :: rest) = allLeaves sub ++ allLeavesFix rest := by
  rw [allLeavesFix.eq_def]

theorem geturlWild_none (iter : AList → List (String × String))
    (url cn mn : String) (ps : AList) (hm : String) :
    geturlWild iter none url cn mn ps hm = (false, "", ps) := by
  rw [geturlWild.eq_def]

theorem geturlWild_some (iter : AList → List (String × String)) (wt : Tree)
    (url cn mn : String) (ps : AList) (hm : String) :
    geturlWild iter (some wt) url cn mn ps hm =
      geturl iter wt (pathJoin url urlPlaceholder) cn mn ps hm := by
  rw [geturlWild.eq_def]

theorem geturlLeaves_no_match (iter : AList → List (String × String))
    (leaves : List Leaf) (url cn mn : String) (ps : AList) (hm : String)
    (h : ∀ l ∈ leaves, leafMatches l cn mn hm = false) :
    geturlLeaves iter leaves url cn mn ps hm = (false, "", ps) := by
  induction leaves generalizing ps with
  | nil => rfl
  | cons l rest ih =>
    rw [geturlLeaves]
    rw [if_neg (by simp [h l (List.mem_cons_self _ _)])]
    exact ih _ (fun l' hm' => h l' (List.mem_cons_of_mem _ hm'))

theorem geturl_no_match_all (n : Nat) :
    (∀ t : Tree, sizeOf t ≤ n → ∀ iter url cn mn ps hm,
      (∀ l ∈ allLeaves t, leafMatches l cn mn hm = false) →
      geturl iter t url cn mn ps hm = (false, "", ps)) ∧
    (∀ ch : List (String × Tree), sizeOf ch ≤ n → ∀ iter url cn mn ps hm,
      (∀ l ∈ allLeavesFix ch, leafMatches l cn mn hm = false) →
      geturlFix iter ch url cn mn ps hm = (false, "", ps)) := by
  induction n using Nat.strong_induction_on with
  | _ n ih =>
    constructor
    · intro t hsz iter url cn mn ps hm h
      rcases t with ⟨fix, wild, leaves⟩
      have hsp : sizeOf (Tree.node fix wild leaves) =
          1 + sizeOf fix + sizeOf wild + sizeOf leaves := by
        simp
      have hfixlt : sizeOf fix < n := by omega
      have hmem := h
      rw [allLeaves_node] at hmem
      have hfix := (ih (sizeOf fix) hfixlt).2 fix le_rfl iter url cn mn ps hm
        (fun l hl => hmem l (List.mem_append_left _ (List.mem_append_left _ hl)))
      have hleaf : ∀ l ∈ leaves, leafMatches l cn mn hm = false :=
        fun l hl => hmem l (List.mem_append_right _ hl)
      rw [geturl]
      simp only [hfix]
      cases wild with
      | none =>
        simp only [geturlWild_none]
        exact geturlLeaves_no_match iter leaves url cn mn ps hm hleaf
      | some wt =>
        have hwtlt : sizeOf wt < n := by
          have hso : sizeOf (some wt) = 1 + sizeOf wt := by simp
          omega
        have hwt := (ih (sizeOf wt) hwtlt).1 wt le_rfl iter
          (pathJoin url urlPlaceholder) cn mn ps hm
          (fun l hl => hmem l (List.mem_append_left _ (List.mem_append_right _ hl)))
        simp only [geturlWild_some, hwt]
        exact geturlLeaves_no_match iter leaves url cn mn ps hm hleaf
    · intro ch hsz iter url cn mn ps hm h
      cases ch with
      | nil => rw [geturlFix]
      | cons head rest =>
        obtain ⟨k, sub⟩ := head
        have hsp : sizeOf ((k, sub) :: rest) =
            1 + (1 + sizeOf k + sizeOf sub) + sizeOf rest := by
          simp
        have hsublt : sizeOf sub < n := by omega
        have hrestlt : sizeOf rest < n := by omega
        have hmem := h
        rw [allLeavesFix_cons] at hmem
        have hsub := (ih (sizeOf sub) hsublt).1 sub le_rfl iter (pathJoin url k) cn mn ps hm
          (fun l hl => hmem l (List.mem_append_left _ hl))
        have hrest := (ih (sizeOf rest) hrestlt).2 rest le_rfl iter url cn mn ps hm
          (fun l hl => hmem l (List.mem_append_right _ hl))
        rw [geturlFix, hsub]
        exact hrest

theorem urlforLoop_no_match (iter : AList → List (String × String))
    (routers : List (String × Tree)) (cn mn : String) (ps : AList)
    (h : ∀ mt ∈ routers, ∀ l ∈ allLeaves mt.2, leafMatches l cn mn mt.1 = false) :
    urlforLoop iter routers cn mn ps = "" := by
  induction routers generalizing ps with
  | nil => rfl
  | cons mt rest ih =>
    obtain ⟨m, t⟩ := mt
    rw [urlforLoop]
    rw [(geturl_no_match_all (sizeOf t)).1 t le_rfl iter "/" cn mn ps m
      (h (m, t) (List.mem_cons_self _ _))]
    exact ih _ (fun mt' hm' => h mt' (List.mem_cons_of_mem _ hm'))

/-! ## Claim C8 -/

/-- Claim C8 counterexample: the query string is produced in the order
Go's map `range` happens to deliver the remaining parameters, which the
Go specification leaves unspecified; for the two-entry map built by
inserting `a=1` then `b=2`, the reversed delivery order — a valid
permutation of the map's entries — produces `?b=2&a=1`, not the
insertion-order string `?a=1&b=2`. -/
theorem tourl_insertion_order_counterexample :
    [("b", "2"), ("a", "1")].Perm [("a", "1"), ("b", "2")] ∧
    tourl [("a", "1"), ("b", "2")] = "?a=1&b=2" ∧
    tourl [("b", "2"), ("a", "1")] = "?b=2&a=1" ∧
    tourl [("b", "2"), ("a", "1")] ≠ tourl [("a", "1"), ("b", "2")] := by
  exact ⟨List.Perm.swap _ _ _, by decide, by decide, by decide⟩

/-- Claim C8 (amended): when a matching leaf is found, the parameters
not consumed by placeholder filling are appended to the produced URL as
a `?`-prefixed, `&`-joined, unescaped query string — in the map's
iteration order, which Go leaves unspecified (insertion order is one
admissible order, not guaranteed); when no leaf in any verb's trie
matches the symbolic reference, the result is the empty string and no
error is raised. -/
theorem urlfor_spec :
    (tourl [] = "") ∧
    (∀ entries : List (String × String),
      (∀ kv ∈ entries, kv.2.data.getLast? ≠ some '&') →
      tourl entries = specQueryString entries) ∧
    (∀ iter (l : Leaf) url cn mn ps hm,
      leafMatches l cn mn hm = true → l.wildcards = [] → l.regexps = none →
      geturl iter (Tree.node [] none [l]) url cn mn ps hm =
        (true, replaceFirst url ("/" ++ urlPlaceholder) "" ++ tourl (iter ps), ps)) ∧
    (∀ iter (t : Tree) url cn mn ps hm,
      (∀ l ∈ allLeaves t, leafMatches l cn mn hm = false) →
      geturl iter t url cn mn ps hm = (false, "", ps)) ∧
    (∀ (routers : List (String × Tree)) iter ep vals,
      (∀ mt ∈ routers, ∀ l ∈ allLeaves mt.2,
        leafMatches l (String.intercalate "/" (goSplit ep '.').dropLast)
          ((goSplit ep '.').getLastD "") mt.1 = false) →
      URLFor routers iter ep vals = "") := by
  refine ⟨rfl, tourl_eq_specQueryString, ?_, ?_, ?_⟩
  · intro iter l url cn mn ps hm hmatch hw hr
    rw [geturl]
    simp only [geturlFix, geturlWild_none]
    rw [geturlLeaves, if_pos (by simp [hmatch])]
    simp only [fillLeaf, hr, hw]
  · intro iter t url cn mn ps hm h
    exact (geturl_no_match_all (sizeOf t)).1 t le_rfl iter url cn mn ps hm h
  · intro routers iter ep vals h
    unfold URLFor
    split
    · rfl
    · split
      · rfl
      · exact urlforLoop_no_match iter routers _ _ _ h

/-- Witness for `urlfor_spec` at concrete inputs. -/
theorem urlfor_spec_witness :
    tourl [("id", "7")] = "?id=7" ∧
    geturl (fun m => m) (Tree.node [] none [leafUserPlain]) "/x"
        "pkg/UserController" "Get" [] "GET" = (true, "/x", []) ∧
    geturl (fun m => m) (Tree.node [] none []) "/" "pkg/UserController" "Get"
        [("id", "7")] "GET" = (false, "", [("id", "7")]) ∧
    URLFor [("GET", Tree.node [] none [])] (fun m => m) "pkg.UserController.Get"
        ["id", "7"] = "" := by
  refine ⟨?_, ?_, ?_, ?_⟩
  · rw [urlfor_spec.2.1 [("id", "7")] (by decide)]
    decide
  · rw [urlfor_spec.2.2.1 (fun m => m) leafUserPlain "/x" "pkg/UserController" "Get" []
      "GET" (by decide) rfl rfl]
    decide
  · exact urlfor_spec.2.2.2.1 (fun m => m) (Tree.node [] none []) "/"
      "pkg/UserController" "Get" [("id", "7")] "GET"
      (by intro l hl; simp [allLeaves, allLeavesFix] at hl)
  · exact urlfor_spec.2.2.2.2 [("GET", Tree.node [] none [])] (fun m => m)
      "pkg.UserController.Get" ["id", "7"]
      (by
        intro mt hmt l hl
        rcases List.mem_singleton.mp hmt with rfl
        simp [allLeaves, allLeavesFix] at hl)

end BeegoRouter
